import Mathlib

/-!
Verification of the vertexladder single-symbol limit order book
(`src/Core/OrderBook.cpp`, `include/orderbook/Core/Order.hpp`,
`include/orderbook/Core/OrderBook.hpp`, `include/orderbook/Core/Types.hpp`).

Shallow embedding conventions:

* `Price = double` is modelled as `ℚ`.  Prices are only ever copied and
  compared in the book code; the single arithmetic use
  (`std::abs(a - b) > MinPriceIncrement` / `< MinPriceIncrement`) is
  monotone in the exact difference, so exact rational arithmetic agrees
  with IEEE semantics in the claimed direction (rounding is monotone and
  `fl(d) ≤ fl(0.01)` whenever `d ≤ 0.01`).
* `Quantity = uint64_t` is modelled as `ℕ` with truncated subtraction.
  The C++ code never wraps a live quantity (filled ≤ quantity for every
  live order); the only wrapping path (`removeOrder` on an over-filled
  self-matched aggressor) is on memory that is freed in the same command,
  in a command that the process does not survive (see `processAddOrder`).
* C++ heap pointers are modelled with identifiers: resting `Order*`s by
  their (unique, duplicate-checked) order id in an association-list heap
  `Book.orders`; `PriceLevel*`s by an allocation counter `lid`.
  A write through a dangling pointer is a no-op on the live book.
* `static uint64_t trade_counter` in `OrderBook::executeTrade` is modelled
  as a per-book field (the source makes it process-global).
* The risk manager, logger, and market-data publisher ports are not
  modelled (`nullptr` dependencies); the emitted trade stream is returned
  as a list.  `symbol`, `account` and timestamps are omitted: no claim
  observes them.
-/

namespace VertexLadder

/-! ## Types (`Types.hpp`) -/

abbrev OrderId := Nat
abbrev Price := ℚ
abbrev Quantity := Nat

inductive Side where
  | Buy
  | Sell
deriving DecidableEq

inductive OrderType where
  | Limit
  | Market
deriving DecidableEq

inductive TimeInForce where
  | GTC
  | IOC
  | FOK
deriving DecidableEq

inductive OrderStatus where
  | New
  | PartiallyFilled
  | Filled
  | Cancelled
  | Rejected
deriving DecidableEq

/-- `Result<OrderId>` from `Types.hpp`. -/
inductive OrderResult where
  | success (id : OrderId)
  | error (msg : String)
deriving DecidableEq

/-- `Result<bool>` from `Types.hpp`. -/
inductive CancelResult where
  | success (ok : Bool)
  | error (msg : String)
deriving DecidableEq

/-! ## Association-list helpers

`std::unordered_map` is modelled as an association list: `alookup` is
`find`, `aerase` is `erase`, `aupsert` is `operator[]=` (overwrite when
the key is present, insert otherwise). -/

def alookup {α : Type} [DecidableEq α] {β : Type} : List (α × β) → α → Option β
  | [], _ => none
  | (k, v) :: rest, k' => if k = k' then some v else alookup rest k'

def aerase {α : Type} [DecidableEq α] {β : Type} : List (α × β) → α → List (α × β)
  | [], _ => []
  | (k, v) :: rest, k' => if k = k' then rest else (k, v) :: aerase rest k'

def aupsert {α : Type} [DecidableEq α] {β : Type} (l : List (α × β)) (k : α) (v : β) :
    List (α × β) :=
  if (alookup l k).isSome then l.map (fun p => if p.1 = k then (k, v) else p) else l ++ [(k, v)]

/-! ## Order (`Order.hpp`) -/

structure Order where
  id : OrderId
  price : Price
  quantity : Quantity
  filled_quantity : Quantity
  side : Side
  type : OrderType
  tif : TimeInForce
  status : OrderStatus
deriving DecidableEq

namespace Order

/-- `filled_quantity >= quantity`. -/
def isFullyFilled (o : Order) : Prop := o.quantity ≤ o.filled_quantity

instance (o : Order) : Decidable o.isFullyFilled := by
  unfold isFullyFilled; infer_instance

/-- `quantity - filled_quantity` (uint64; never wraps for a live order). -/
def remainingQuantity (o : Order) : Quantity := o.quantity - o.filled_quantity

def isBuy (o : Order) : Prop := o.side = Side.Buy

/-- `Order::fill`: bump `filled_quantity`, update the status. -/
def fill (o : Order) (fill_quantity : Quantity) : Order :=
  let f := o.filled_quantity + fill_quantity
  { o with
    filled_quantity := f
    status := if o.quantity ≤ f then OrderStatus.Filled else OrderStatus.PartiallyFilled }

end Order

/-- Trade record (`Order.hpp`); `symbol`/timestamp omitted. -/
structure Trade where
  id : Nat
  buy_order_id : OrderId
  sell_order_id : OrderId
  price : Price
  quantity : Quantity
deriving DecidableEq

/-! ## PriceLevel (`Order.hpp`)

The intrusive doubly-linked `Order*` list (`head`/`tail`/`prev`/`next`)
is modelled as the FIFO list `orders` of order ids, head first.  The
cached aggregates `total_quantity` and `order_count` are separate fields,
exactly as in the source.  `lid` models the identity of the heap-allocated
`PriceLevel` object (its address). -/

structure PriceLevel where
  lid : Nat
  price : Price
  total_quantity : Quantity
  order_count : Nat
  orders : List OrderId
deriving DecidableEq

namespace PriceLevel

/-- `PriceLevel::addOrder`: append at the tail, bump the aggregates. -/
def addOrder (lvl : PriceLevel) (o : Order) : PriceLevel :=
  { lvl with
    orders := lvl.orders ++ [o.id]
    total_quantity := lvl.total_quantity + o.remainingQuantity
    order_count := lvl.order_count + 1 }

/-- `PriceLevel::removeOrder`: unlink, decrement the aggregates. -/
def removeOrder (lvl : PriceLevel) (o : Order) : PriceLevel :=
  { lvl with
    orders := lvl.orders.erase o.id
    total_quantity := lvl.total_quantity - o.remainingQuantity
    order_count := lvl.order_count - 1 }

/-- `PriceLevel::updateQuantity`: subtract a fill (guarded), remove the
order when it is now fully filled. -/
def updateQuantity (lvl : PriceLevel) (o : Order) (filled_quantity : Quantity) : PriceLevel :=
  let lvl' :=
    if filled_quantity ≤ lvl.total_quantity then
      { lvl with total_quantity := lvl.total_quantity - filled_quantity }
    else lvl
  if o.isFullyFilled then lvl'.removeOrder o else lvl'

/-- `order_count == 0 || head == nullptr`. -/
def isEmpty (lvl : PriceLevel) : Prop := lvl.order_count = 0 ∨ lvl.orders = []

instance (lvl : PriceLevel) : Decidable lvl.isEmpty := by
  unfold isEmpty; infer_instance

def getFirstOrder (lvl : PriceLevel) : Option OrderId := lvl.orders.head?

end PriceLevel

/-- `OrderLocation` (`Order.hpp`): the `Order*` member is the id itself
(the heap is keyed by id), so only the level pointer and side remain. -/
structure OrderLocation where
  lid : Nat
  side : Side
deriving DecidableEq

/-! ## Book state (`OrderBook.hpp` private members) -/

/-- The consumer-owned book state.  `orders` is the live `Order` heap
(keyed by order id), `bids`/`asks` the two sorted level vectors (best at
the back), `price_index` the price→level map shared by both sides,
`order_index` the id→locator map.  `next_lid` models the allocator for
`PriceLevel` objects and `trade_counter` the trade-id counter. -/
structure Book where
  orders : List (OrderId × Order)
  bids : List PriceLevel
  asks : List PriceLevel
  price_index : List (Price × Nat)
  order_index : List (OrderId × OrderLocation)
  next_lid : Nat
  trade_counter : Nat
deriving DecidableEq

namespace Book

def empty : Book := ⟨[], [], [], [], [], 0, 1⟩

def lookupOrder (b : Book) (i : OrderId) : Option Order := alookup b.orders i

/-- Write through an `Order*`: update the heap entry, no-op when dangling. -/
def updOrder (b : Book) (i : OrderId) (f : Order → Order) : Book :=
  { b with orders := b.orders.map (fun p => if p.1 = i then (p.1, f p.2) else p) }

/-- `delete order` — remove from the heap. -/
def deleteOrder (b : Book) (i : OrderId) : Book :=
  { b with orders := aerase b.orders i }

/-- Dereference a `PriceLevel*` (levels live inside the two vectors). -/
def findLevelById (b : Book) (lid : Nat) : Option PriceLevel :=
  (b.bids ++ b.asks).find? (fun l => l.lid == lid)

/-- Write through a `PriceLevel*`: update the level wherever it lives;
no-op when dangling. -/
def updLevel (b : Book) (lid : Nat) (f : PriceLevel → PriceLevel) : Book :=
  { b with
    bids := b.bids.map (fun l => if l.lid = lid then f l else l)
    asks := b.asks.map (fun l => if l.lid = lid then f l else l) }

end Book

/-- `static constexpr Price MinPriceIncrement = 0.01`. -/
def MinPriceIncrement : Price := 1 / 100

/-- `std::abs` on prices (spelled out so that it evaluates by `decide`). -/
def ratAbs (q : ℚ) : ℚ := if q < 0 then -q else q

/-- Remaining quantity of a live heap order; 0 for a dead id. -/
def remB (b : Book) (i : OrderId) : Quantity :=
  match b.lookupOrder i with
  | some o => o.remainingQuantity
  | none => 0

/-! ## Queries (`OrderBook.cpp` lines 522-603) -/

/-- `bestBid`: the highest bid sits at the back of `bids_`. -/
def bestBid (b : Book) : Option Price := b.bids.getLast?.map (·.price)

/-- `bestAsk`: the lowest ask sits at the back of `asks_`. -/
def bestAsk (b : Book) : Option Price := b.asks.getLast?.map (·.price)

def getOrderCount (b : Book) : Nat := b.order_index.length

def getBidLevelCount (b : Book) : Nat := b.bids.length

def getAskLevelCount (b : Book) : Nat := b.asks.length

/-! ## Price-level management (`OrderBook.cpp` lines 606-702) -/

/-- Tail of `findOrCreatePriceLevel`: allocate a level and insert it at
the `std::lower_bound` position (bids ascending / asks descending; on the
sorted vectors the search result is exactly the `takeWhile` split). -/
def createPriceLevel (b : Book) (price : Price) (side : Side) : Book × Nat :=
  let lid := b.next_lid
  let lvl : PriceLevel := ⟨lid, price, 0, 0, []⟩
  let b :=
    if side = Side.Buy then
      { b with bids := b.bids.takeWhile (fun l : PriceLevel => decide (l.price < price)) ++
          lvl :: b.bids.dropWhile (fun l : PriceLevel => decide (l.price < price)) }
    else
      { b with asks := b.asks.takeWhile (fun l : PriceLevel => decide (price < l.price)) ++
          lvl :: b.asks.dropWhile (fun l : PriceLevel => decide (price < l.price)) }
  ({ b with price_index := aupsert b.price_index price lid, next_lid := b.next_lid + 1 }, lid)

/-- `OrderBook::findOrCreatePriceLevel`.  Note that `price_index_` is keyed
by price only — a hit returns the existing level even when it belongs to
the opposite side. -/
def findOrCreatePriceLevel (b : Book) (price : Price) (side : Side) : Book × Nat :=
  match alookup b.price_index price with
  | some lid =>
    match b.findLevelById lid with
    | some lvl =>
      if ratAbs (lvl.price - price) < MinPriceIncrement then (b, lid)
      else createPriceLevel { b with price_index := aerase b.price_index price } price side
    | none =>
      -- dangling level pointer in the index: the C++ would read freed
      -- memory here; unreachable from consistent states
      createPriceLevel { b with price_index := aerase b.price_index price } price side
  | none => createPriceLevel b price side

/-- `OrderBook::removePriceLevel`: refuse when non-empty (warn), erase the
price-index entry, then search **the given side's vector** for the level —
when the level actually lives on the other side it is left stranded there
(the source only logs a warning). -/
def removePriceLevel (b : Book) (lid : Nat) (side : Side) : Book :=
  match b.findLevelById lid with
  | none => b
  | some lvl =>
    if ¬ lvl.isEmpty then b
    else
      let b := { b with price_index := aerase b.price_index lvl.price }
      if side = Side.Buy then
        { b with bids := b.bids.eraseP (fun l => l.lid == lid) }
      else
        { b with asks := b.asks.eraseP (fun l => l.lid == lid) }

/-- The "clean up empty price level" pattern shared by the cancel, the
modify, and the per-level matching paths: if the level behind the pointer
is now empty and the price index still maps the **level's** price to this
very level, remove it from the given side. -/
def cleanupLevelIf (b : Book) (lid : Nat) (side : Side) : Book :=
  match b.findLevelById lid with
  | some lvl =>
    if lvl.isEmpty then
      if alookup b.price_index lvl.price = some lid then removePriceLevel b lid side
      else b
    else b
  | none => b

/-! ## Matching (`OrderBook.cpp` lines 786-967) -/

/-- `OrderBook::executeTrade`: fill both sides through their references
(the heap), allocate a trade id, build the trade record.  The aggressor's
side is immutable, so it is passed as a snapshot. -/
def executeTrade (b : Book) (aggrId : OrderId) (aggrSide : Side) (passiveId : OrderId)
    (trade_price : Price) (trade_quantity : Quantity) : Book × Trade :=
  let b := b.updOrder aggrId (Order.fill · trade_quantity)
  let b := b.updOrder passiveId (Order.fill · trade_quantity)
  let buy_order_id := if aggrSide = Side.Buy then aggrId else passiveId
  let sell_order_id := if aggrSide = Side.Sell then aggrId else passiveId
  let t : Trade := ⟨b.trade_counter, buy_order_id, sell_order_id, trade_price, trade_quantity⟩
  ({ b with trade_counter := b.trade_counter + 1 }, t)

/-- The incoming order's `isFullyFilled()` as read through its (possibly
freed) reference: an order is only deleted once fully filled, so a stale
read of a dead id yields `true`. -/
def incFilledOrDead (b : Book) (i : OrderId) : Prop :=
  match b.lookupOrder i with
  | some o => o.isFullyFilled
  | none => True

instance (b : Book) (i : OrderId) : Decidable (incFilledOrDead b i) := by
  unfold incFilledOrDead
  rcases b.lookupOrder i with _ | o
  · exact inferInstanceAs (Decidable True)
  · exact inferInstanceAs (Decidable o.isFullyFilled)

/-- The `while (current_order && !incoming.isFullyFilled())` loop body of
`OrderBook::matchAgainstPriceLevel`, iterating over the saved-`next` chain
(the level's queue at entry; nothing is ever inserted mid-loop, and only
the order being visited is unlinked, so the chain is the entry queue). -/
def matchLoop (incId : OrderId) (incSide : Side) (lvlId : Nat) (lvlPrice : Price) :
    Book → List OrderId → Book × List Trade
  | b, [] => (b, [])
  | b, cur :: rest =>
    if incFilledOrDead b incId then (b, [])
    else
      match b.lookupOrder incId, b.lookupOrder cur with
      | some inc, some curO =>
        let trade_quantity := min inc.remainingQuantity curO.remainingQuantity
        if trade_quantity = 0 then
          if curO.remainingQuantity = 0 then
            -- ghost order (fully filled but not removed): unlink and free
            let b := b.updLevel lvlId (PriceLevel.removeOrder · curO)
            let b := { b with order_index := aerase b.order_index cur }
            let b := b.deleteOrder cur
            matchLoop incId incSide lvlId lvlPrice b rest
          else (b, [])
        else
          let (b, t) := executeTrade b incId incSide cur lvlPrice trade_quantity
          match b.lookupOrder cur with
          | some curF =>
            let b := b.updLevel lvlId (PriceLevel.updateQuantity · curF trade_quantity)
            let b :=
              if curF.isFullyFilled then
                (({ b with order_index := aerase b.order_index cur } : Book).deleteOrder cur)
              else b
            let (b, ts) := matchLoop incId incSide lvlId lvlPrice b rest
            (b, t :: ts)
          | none => (b, [t])   -- unreachable: cur was just written
      | _, _ => (b, [])
        -- dangling current pointer: unreachable from consistent states

/-- `OrderBook::matchAgainstPriceLevel`: run the FIFO loop from the head,
then clean up the level if it emptied (guarded by the price-index check,
and passing the side opposite to the incoming order). -/
def matchAgainstPriceLevel (b : Book) (incId : OrderId) (incSide : Side) (lvlId : Nat) :
    Book × List Trade :=
  match b.findLevelById lvlId with
  | none => (b, [])
  | some lvl =>
    let (b, ts) := matchLoop incId incSide lvlId lvl.price b lvl.orders
    let opposite_side := if incSide = Side.Buy then Side.Sell else Side.Buy
    (cleanupLevelIf b lvlId opposite_side, ts)

/-- Does the incoming order cross a level at `lvlPrice`
(`buy.limit ≥ level.price`, resp. `sell.limit ≤ level.price`)? -/
def crossesLevel (side : Side) (incPrice lvlPrice : Price) : Prop :=
  if side = Side.Buy then lvlPrice ≤ incPrice else incPrice ≤ lvlPrice

instance (side : Side) (p q : Price) : Decidable (crossesLevel side p q) := by
  unfold crossesLevel; rcases side <;> simp <;> infer_instance

/-- `OrderBook::executeMatching`: walk the opposite vector from the back
(best price first).  The C++ reverse-iterator loop erases the level it
just consumed; its observable behaviour is "repeatedly process the back
level while it crosses", bounded by the number of levels (`fuel`). -/
def executeMatching (incId : OrderId) (incSide : Side) (incPrice : Price) :
    Nat → Book → Book × List Trade
  | 0, b => (b, [])
  | fuel + 1, b =>
    let levels := if incSide = Side.Buy then b.asks else b.bids
    match levels.getLast? with
    | none => (b, [])
    | some lvl =>
      if lvl.isEmpty ∨ incFilledOrDead b incId then (b, [])
      else if ¬ crossesLevel incSide incPrice lvl.price then (b, [])
      else
        let (b, ts) := matchAgainstPriceLevel b incId incSide lvl.lid
        let (b', ts') := executeMatching incId incSide incPrice fuel b
        (b', ts ++ ts')

/-- `OrderBook::processMatching`: peek the best opposite level, check the
cross condition, delegate to `executeMatching`. -/
def processMatching (b : Book) (o : Order) : Book × List Trade :=
  let opposite := if o.side = Side.Buy then b.asks else b.bids
  match opposite.getLast? with
  | none => (b, [])
  | some best_level =>
    if crossesLevel o.side o.price best_level.price ∧ ¬ best_level.isEmpty then
      executeMatching o.id o.side o.price (opposite.length + 1) b
    else (b, [])

/-! ## Consumer-side command processing (`OrderBook.cpp` lines 197-519) -/

/-- `OrderBook::processAddOrder` (risk manager absent).  Returns `none`
when the process aborts: if the incoming order was deleted during
matching (it self-matched after joining an opposite-side level through
the shared `price_index_`), the remaining C++ code reads the freed order,
sees `filled_quantity > 0` and `isFullyFilled()`, and reaches
`delete order_raw` a second time — `MemoryManager::deallocateAligned`
calls `std::abort()` on the double free. -/
def processAddOrder (b : Book) (o : Order) : Option (Book × List Trade) :=
  if (alookup b.order_index o.id).isSome then some (b, [])   -- duplicate id: log and drop
  else
    let bl := findOrCreatePriceLevel b o.price o.side
    let lid := bl.2
    let b := { bl.1 with orders := bl.1.orders ++ [(o.id, o)] }
    let b := b.updLevel lid (PriceLevel.addOrder · o)
    let b := { b with order_index := aupsert b.order_index o.id ⟨lid, o.side⟩ }
    let bt := processMatching b o
    let b := bt.1
    match b.lookupOrder o.id with
    | none => none
    | some o2 =>
      if 0 < o2.filled_quantity then
        let b := b.updLevel lid (PriceLevel.updateQuantity · o2 o2.filled_quantity)
        if o2.isFullyFilled then
          let b :=
            match b.findLevelById lid with
            | some lvl =>
              if lvl.isEmpty then
                if alookup b.price_index o2.price = some lid then
                  removePriceLevel b lid o2.side
                else b
              else b
            | none => b
          let b := { b with order_index := aerase b.order_index o.id }
          let b := b.deleteOrder o.id
          some (b, bt.2)
        else some (b, bt.2)
      else some (b, bt.2)

/-- `OrderBook::processCancelOrder`.  The boolean output records the
"cancel requested for non-existent order" warning. -/
def processCancelOrder (b : Book) (id : OrderId) : Book × Bool :=
  match alookup b.order_index id with
  | none => (b, true)
  | some loc =>
    match b.lookupOrder id with
    | none => (b, false)   -- dangling locator: unreachable from consistent states
    | some o =>
      let b := b.updLevel loc.lid (PriceLevel.removeOrder · o)
      let b := cleanupLevelIf b loc.lid loc.side
      let b := b.deleteOrder id
      let b := { b with order_index := aerase b.order_index id }
      (b, false)

/-- The price-relocation arm of `OrderBook::processModifyOrder` (lines
447-488): unlink from the old level, destroy it if emptied, rewrite the
order's price, find-or-create the target level, append at its tail
(losing time priority), and update the order index. -/
def modifyPriceStep (b : Book) (id : OrderId) (o : Order) (loc : OrderLocation)
    (new_price : Price) : Book × Order × OrderLocation :=
  let b := b.updLevel loc.lid (PriceLevel.removeOrder · o)
  let b := cleanupLevelIf b loc.lid loc.side
  let o := { o with price := new_price }
  let b := b.updOrder id (fun _ => o)
  let bl := findOrCreatePriceLevel b new_price o.side
  let b := bl.1.updLevel bl.2 (PriceLevel.addOrder · o)
  let loc : OrderLocation := ⟨bl.2, o.side⟩
  let b := { b with order_index := aupsert b.order_index id loc }
  (b, o, loc)

/-- The in-place quantity arm of `OrderBook::processModifyOrder` (lines
491-510): swap the order's remaining quantity out of and back into the
level's cached total, clamping `filled_quantity` to the new quantity. -/
def modifyQtyStep (b : Book) (id : OrderId) (o : Order) (loc : OrderLocation)
    (new_quantity : Quantity) : Book :=
  let old_remaining := o.remainingQuantity
  let b := b.updLevel loc.lid
    (fun l => { l with total_quantity := l.total_quantity - old_remaining })
  let o := { o with
    quantity := new_quantity
    filled_quantity :=
      if new_quantity < o.filled_quantity then new_quantity else o.filled_quantity }
  let b := b.updOrder id (fun _ => o)
  let b := b.updLevel loc.lid
    (fun l => { l with total_quantity := l.total_quantity + o.remainingQuantity })
  b

/-- `OrderBook::processModifyOrder`.  A price change beyond
`MinPriceIncrement` relocates the order (losing time priority); a
quantity change is applied in place, clamping `filled_quantity`.
`0` acts as an "unchanged" sentinel for both parameters. -/
def processModifyOrder (b : Book) (id : OrderId) (new_price : Price)
    (new_quantity : Quantity) : Book :=
  match alookup b.order_index id with
  | none => b
  | some loc =>
    match b.lookupOrder id with
    | none => b   -- dangling locator: unreachable from consistent states
    | some o =>
      let bol :=
        if 0 < new_price ∧ MinPriceIncrement < ratAbs (o.price - new_price) then
          modifyPriceStep b id o loc new_price
        else (b, o, loc)
      if 0 < new_quantity then modifyQtyStep bol.1 id bol.2.1 bol.2.2 new_quantity
      else bol.1

/-! ## Producer side (`OrderBook.cpp` lines 175-195, 343-352, 411-422)

The sharded `boost::lockfree::spsc_queue<OrderRequest,
capacity<100000>>` is modelled as a bounded list; `push` fails (returns
`false`) when the shard is full.  The producer methods build a POD
request, push it, **ignore the push result**, and return success. -/

inductive ReqType where
  | Add
  | Cancel
  | Modify
deriving DecidableEq

/-- The POD `OrderBook::OrderRequest`. -/
structure OrderRequest where
  type : ReqType
  id : OrderId
  side : Side
  order_type : OrderType
  price : Price
  quantity : Quantity
  tif : TimeInForce
deriving DecidableEq

/-- `static constexpr size_t OrderQueueCapacity = 100000`. -/
def OrderQueueCapacity : Nat := 100000

/-- `spsc_queue::push`: wait-free enqueue, `false` when full. -/
def spscPush (q : List OrderRequest) (r : OrderRequest) : Bool × List OrderRequest :=
  if q.length < OrderQueueCapacity then (true, q ++ [r]) else (false, q)

/-- `OrderBook::addOrder` (producer side): build the request, push it to
the caller's shard, and return `success(order.id)` unconditionally — the
push result is discarded. -/
def addOrder (q : List OrderRequest) (o : Order) : OrderResult × List OrderRequest :=
  let req : OrderRequest := ⟨ReqType.Add, o.id, o.side, o.type, o.price, o.quantity, o.tif⟩
  let q := (spscPush q req).2
  (OrderResult.success o.id, q)

/-- `OrderBook::cancelOrder` (producer side): always `success(true)`. -/
def cancelOrder (q : List OrderRequest) (id : OrderId) : CancelResult × List OrderRequest :=
  let req : OrderRequest :=
    ⟨ReqType.Cancel, id, Side.Buy, OrderType.Limit, 0, 0, TimeInForce.GTC⟩
  let q := (spscPush q req).2
  (CancelResult.success true, q)

/-- Consumer-side materialisation of an `Add` request
(`OrderBook::processLoop`): a fresh order with `filled_quantity = 0` and
status `New`. -/
def materialize (r : OrderRequest) : Order :=
  ⟨r.id, r.price, r.quantity, 0, r.side, r.order_type, r.tif, OrderStatus.New⟩

/-- One step of the consumer drain loop. -/
def processRequest (b : Book) (r : OrderRequest) : Option (Book × List Trade) :=
  match r.type with
  | ReqType.Add => processAddOrder b (materialize r)
  | ReqType.Cancel => some ((processCancelOrder b r.id).1, [])
  | ReqType.Modify => some (processModifyOrder b r.id r.price r.quantity, [])

/-- Apply a sequence of commands in order (one shard, as the consumer
does); `none` as soon as a command aborts the process. -/
def processAll : Book → List OrderRequest → Option (Book × List Trade)
  | b, [] => some (b, [])
  | b, r :: rs =>
    match processRequest b r with
    | none => none
    | some (b1, ts1) =>
      match processAll b1 rs with
      | none => none
      | some (b2, ts2) => some (b2, ts1 ++ ts2)

/-! ## Specification predicates

These are not translations of source functions; they state properties the
theorems below assert about the embedding. -/

/-- Two books assign every order id the same remaining quantity (`remB`;
dead ids count as 0). -/
def SameRems (b b' : Book) : Prop := ∀ j, remB b' j = remB b j

/-- The order heap has no duplicate ids (the duplicate-id check in
`processAddOrder` maintains this). -/
def HeapNodup (b : Book) : Prop := (b.orders.map Prod.fst).Nodup

/-- Every heap entry stores an order whose `id` field is its key. -/
def HeapIdsMatch (b : Book) : Prop := ∀ p ∈ b.orders, (p : OrderId × Order).2.id = p.1

instance (b : Book) : Decidable (HeapNodup b) := by
  unfold HeapNodup
  exact List.nodupDecidable _

instance (b : Book) : Decidable (HeapIdsMatch b) := by
  unfold HeapIdsMatch
  exact List.decidableBAll _ _

/-- No two live `PriceLevel` objects share an address. -/
def LidsNodup (b : Book) : Prop := ((b.bids ++ b.asks).map PriceLevel.lid).Nodup

instance (b : Book) : Decidable (LidsNodup b) := by
  unfold LidsNodup
  exact List.nodupDecidable _

/-- Order `i` rests in some level of `b` whose price is `p`. -/
def InLevelAtPrice (b : Book) (i : OrderId) (p : Price) : Prop :=
  ∃ lvl, lvl ∈ b.bids ++ b.asks ∧ i ∈ lvl.orders ∧ lvl.price = p

/-- The trade stream emitted while the taker `incId` crosses the book is
price-time sound: each trade is struck while its maker is resting in a
level whose price is the trade price, the trade quantity is exactly
`min(taker remaining, maker remaining)` **at that moment** (hence ≤ both),
and between consecutive trades the remaining quantities evolve exactly by
the fills (the intermediate books chain from the argument book to the
result book). -/
inductive TradesOk (incId : OrderId) : Book → List Trade → Book → Prop where
  | nil (b b' : Book) : SameRems b b' → TradesOk incId b [] b'
  | cons (b bm b2 bf : Book) (m : OrderId) (t : Trade) (ts : List Trade) :
      SameRems b bm →
      InLevelAtPrice bm m t.price →
      t.quantity = min (remB bm incId) (remB bm m) →
      0 < t.quantity →
      remB b2 incId = remB bm incId - t.quantity →
      remB b2 m = remB bm m - t.quantity →
      TradesOk incId b2 ts bf →
      TradesOk incId b (t :: ts) bf

/-! ## Concrete command sequences used to evaluate the code -/

/-- A limit GTC add request. -/
def addReq (id : OrderId) (side : Side) (price : Price) (qty : Quantity) : OrderRequest :=
  ⟨ReqType.Add, id, side, OrderType.Limit, price, qty, TimeInForce.GTC⟩

/-- A modify request (`0` = leave unchanged). -/
def modReq (id : OrderId) (price : Price) (qty : Quantity) : OrderRequest :=
  ⟨ReqType.Modify, id, Side.Buy, OrderType.Limit, price, qty, TimeInForce.GTC⟩

/-- Is the book crossed (best bid at or above best ask, both present)? -/
def crossedBook (b : Book) : Prop :=
  match bestBid b, bestAsk b with
  | some pb, some pa => pa ≤ pb
  | _, _ => False

instance (b : Book) : Decidable (crossedBook b) := by
  unfold crossedBook
  rcases bestBid b with _ | pb <;> rcases bestAsk b with _ | pa
  all_goals first
    | exact inferInstanceAs (Decidable False)
    | exact inferInstanceAs (Decidable (_ ≤ _))

/-- Rest a bid at 100, an ask at 101, then re-price the bid to 102. -/
def crossRun : List OrderRequest :=
  [addReq 1 Side.Buy 100 10, addReq 2 Side.Sell 101 10, modReq 1 102 0]

/-- A full cross at one price: the aggressor joins the resting ask's own
level (the price index is keyed by price only). -/
def strandRun : List OrderRequest :=
  [addReq 1 Side.Sell 100 10, addReq 2 Side.Buy 100 10]

/-- An FOK buy for 10 against only 5 resting on the opposite side. -/
def fokRun : List OrderRequest :=
  [addReq 1 Side.Sell 100 5,
   ⟨ReqType.Add, 2, Side.Buy, OrderType.Limit, 101, 10, TimeInForce.FOK⟩]

/-- Rest a sell, partially fill it (3 of 10), then modify its quantity
down to 2 ≤ 3 = `filled_quantity`. -/
def ghostRun : List OrderRequest :=
  [addReq 1 Side.Sell 100 10, addReq 2 Side.Buy 101 3, modReq 1 0 2]

/-- A producer shard that is completely full. -/
def fullShard : List OrderRequest :=
  List.replicate OrderQueueCapacity (addReq 0 Side.Buy 1 1)

/-- The (lid, price, queue) skeleton of a ladder: everything about a
vector of levels except the cached `total_quantity`/`order_count`. -/
def levelShape (ls : List PriceLevel) : List (Nat × Price × List OrderId) :=
  ls.map (fun l => (l.lid, l.price, l.orders))

/-- The maker (passive) order id of a trade, given the aggressor's side:
`executeTrade` stores the aggressor as the buyer on a buy, the seller on a
sell. -/
def makerOf (incSide : Side) (t : Trade) : OrderId :=
  if incSide = Side.Buy then t.sell_order_id else t.buy_order_id

/-- The incoming order does not cross the best opposite level — the gate
`processMatching` checks before doing any work. -/
def noCrossTop (b : Book) (o : Order) : Prop :=
  match (if o.side = Side.Buy then b.asks else b.bids).getLast? with
  | none => True
  | some best => ¬ crossesLevel o.side o.price best.price

instance (b : Book) (o : Order) : Decidable (noCrossTop b o) := by
  unfold noCrossTop
  rcases (if o.side = Side.Buy then b.asks else b.bids).getLast? with _ | best
  · exact inferInstanceAs (Decidable True)
  · exact inferInstanceAs (Decidable ¬ _)

/-- The landing site of a new order at `o.price` is clean: either no
level is indexed at that exact price, or the indexed level resolves, on
the order's own side, at that price, is non-empty, and does not already
hold the id. -/
def addSiteOk (b : Book) (o : Order) : Bool :=
  match alookup b.price_index o.price with
  | none => true
  | some lid =>
    match b.findLevelById lid with
    | none => false
    | some lvl =>
      decide (lvl.price = o.price) &&
      decide (lvl ∈ (if o.side = Side.Buy then b.bids else b.asks)) &&
      decide (¬ lvl.isEmpty) && decide (o.id ∉ lvl.orders)

/-- Every live level's address predates the allocation counter. -/
def lidsFresh (b : Book) : Prop := ∀ lvl ∈ b.bids ++ b.asks, lvl.lid < b.next_lid

instance (b : Book) : Decidable (lidsFresh b) := by
  unfold lidsFresh
  exact List.decidableBAll _ _

/-- A sell of 10 at 100, used as a resting order in concrete witnesses. -/
def sampleOrder : Order :=
  ⟨1, 100, 10, 0, Side.Sell, OrderType.Limit, TimeInForce.GTC, OrderStatus.New⟩

/-- A small self-contained book: `sampleOrder` resting alone at 100. -/
def sampleBook : Book :=
  ⟨[(1, sampleOrder)], [], [⟨0, 100, 10, 1, [1]⟩], [(100, 0)], [(1, ⟨0, Side.Sell⟩)], 1, 1⟩

/-- A buy resting below `sampleBook`'s ask: it does not cross. -/
def sampleRestingBuy : Order :=
  ⟨2, 99, 5, 0, Side.Buy, OrderType.Limit, TimeInForce.GTC, OrderStatus.New⟩

/-- An aggressive buy crossing `sampleBook`'s ask. -/
def sampleTaker : Order :=
  ⟨2, 101, 4, 0, Side.Buy, OrderType.Limit, TimeInForce.GTC, OrderStatus.New⟩

end VertexLadder

/-! # Theorems -/

namespace VertexLadder

/-! ## Association-list and book-plumbing lemmas -/

theorem alookup_map_upd {α β : Type} [DecidableEq α] (l : List (α × β)) (i : α)
    (f : β → β) (j : α) :
    alookup (l.map fun p => if p.1 = i then (p.1, f p.2) else p) j =
      if j = i then (alookup l j).map f else alookup l j := by
  induction l with
  | nil => simp [alookup]
  | cons p rest ih =>
    obtain ⟨k, v⟩ := p
    dsimp only [List.map_cons]
    by_cases hki : k = i <;> by_cases hkj : k = j
    · subst hki; subst hkj
      rw [if_pos rfl]
      simp [alookup]
    · subst hki
      rw [if_pos rfl]
      simp only [alookup, if_neg hkj, ih,
        if_neg (show ¬ j = k from fun h => hkj h.symm)]
    · subst hkj
      rw [if_neg hki]
      simp only [alookup, if_pos rfl, if_neg hki, if_true]
    · rw [if_neg hki]
      simp only [alookup, if_neg hkj, ih]

theorem mem_keys_of_alookup_some {α β : Type} [DecidableEq α] {l : List (α × β)} {k : α}
    {v : β} (h : alookup l k = some v) : k ∈ l.map Prod.fst := by
  induction l with
  | nil => simp [alookup] at h
  | cons p rest ih =>
    obtain ⟨k', v'⟩ := p
    simp only [alookup] at h
    by_cases hk : k' = k
    · subst hk; simp
    · rw [if_neg hk] at h
      simp [ih h]

theorem alookup_aerase {α β : Type} [DecidableEq α] (l : List (α × β)) (k j : α)
    (hnd : (l.map Prod.fst).Nodup) :
    alookup (aerase l k) j = if j = k then none else alookup l j := by
  induction l with
  | nil => simp [aerase, alookup]
  | cons p rest ih =>
    obtain ⟨k', v⟩ := p
    simp only [List.map_cons, List.nodup_cons] at hnd
    simp only [aerase]
    by_cases hk : k' = k
    · subst hk
      rw [if_pos rfl]
      by_cases hj : j = k'
      · subst hj
        rw [if_pos rfl]
        cases halt : alookup rest j with
        | none => rfl
        | some v' => exact absurd (mem_keys_of_alookup_some halt) hnd.1
      · simp only [if_neg hj, alookup,
          if_neg (show ¬ k' = j from fun h => hj h.symm)]
    · rw [if_neg hk]
      simp only [alookup]
      by_cases hj : k' = j
      · subst hj
        simp only [if_pos rfl, if_neg (show ¬ k' = k from hk), if_true]
      · rw [if_neg hj, if_neg hj, ih hnd.2]

theorem alookup_append_right {α β : Type} [DecidableEq α] (l : List (α × β)) (k : α) (v : β)
    (h : alookup l k = none) : alookup (l ++ [(k, v)]) k = some v := by
  induction l with
  | nil => simp [alookup]
  | cons p rest ih =>
    obtain ⟨k', v'⟩ := p
    simp only [alookup, List.cons_append] at h ⊢
    by_cases hk : k' = k
    · rw [if_pos hk] at h; cases h
    · rw [if_neg hk] at h ⊢
      exact ih h

theorem alookup_append_left {α β : Type} [DecidableEq α] (l : List (α × β)) (k j : α) (v : β)
    (h : j ≠ k) : alookup (l ++ [(k, v)]) j = alookup l j := by
  induction l with
  | nil =>
    simp only [List.nil_append, alookup]
    rw [if_neg (show ¬ k = j from fun hh => h hh.symm)]
  | cons p rest ih =>
    obtain ⟨k', v'⟩ := p
    simp only [List.cons_append, alookup]
    by_cases hk : k' = j
    · rw [if_pos hk, if_pos hk]
    · rw [if_neg hk, if_neg hk]
      exact ih

/-- `orders` (the heap) is untouched by level plumbing. -/
theorem orders_updLevel (b : Book) (lid : Nat) (f : PriceLevel → PriceLevel) :
    (b.updLevel lid f).orders = b.orders := rfl

theorem orders_removePriceLevel (b : Book) (lid : Nat) (s : Side) :
    (removePriceLevel b lid s).orders = b.orders := by
  unfold removePriceLevel
  rcases b.findLevelById lid with _ | lvl
  · rfl
  · dsimp only
    split
    · rfl
    · split <;> rfl

theorem orders_cleanupLevelIf (b : Book) (lid : Nat) (s : Side) :
    (cleanupLevelIf b lid s).orders = b.orders := by
  unfold cleanupLevelIf
  rcases b.findLevelById lid with _ | lvl
  · rfl
  · dsimp only
    split
    · split
      · exact orders_removePriceLevel ..
      · rfl
    · rfl

theorem orders_createPriceLevel (b : Book) (p : Price) (s : Side) :
    (createPriceLevel b p s).1.orders = b.orders := by
  unfold createPriceLevel
  dsimp only
  split <;> rfl

theorem orders_findOrCreatePriceLevel (b : Book) (p : Price) (s : Side) :
    (findOrCreatePriceLevel b p s).1.orders = b.orders := by
  unfold findOrCreatePriceLevel
  cases alookup b.price_index p with
  | none => exact orders_createPriceLevel ..
  | some lid =>
    dsimp only
    cases (b.findLevelById lid) with
    | none => exact orders_createPriceLevel _ p s
    | some lvl =>
      dsimp only
      split
      · rfl
      · exact orders_createPriceLevel _ p s

theorem lookupOrder_updOrder (b : Book) (i : OrderId) (f : Order → Order) (j : OrderId) :
    (b.updOrder i f).lookupOrder j =
      if j = i then (b.lookupOrder j).map f else b.lookupOrder j :=
  alookup_map_upd b.orders i f j

/-- `levelShape` ignores pure `total_quantity` rewrites. -/
theorem levelShape_map_total (ls : List PriceLevel) (lid : Nat)
    (f : PriceLevel → Quantity) :
    levelShape (ls.map fun l => if l.lid = lid then { l with total_quantity := f l } else l) =
      levelShape ls := by
  unfold levelShape
  rw [List.map_map]
  apply List.map_congr_left
  intro l _
  by_cases h : l.lid = lid <;> simp [h]

/-- C1: the claim fails on the code.  After `crossRun` — rest a bid at
100 and an ask at 101, then modify the bid's price to 102 — every command
returned normally, both sides are non-empty, and best bid = 102 ≥ 101 =
best ask: the book is crossed.  `processModifyOrder` re-prices an order
by moving it between levels without ever attempting a matching pass, so a
modify can leave a resting buy at or above the best ask, contradicting
the claimed invariant. -/
theorem modify_leaves_crossed_book :
    (processAll Book.empty crossRun).map
        (fun r => (bestBid r.1, bestAsk r.1, decide (crossedBook r.1), r.2))
      = some (some 102, some 101, true, []) := by
  with_unfolding_all decide

/-- C7: the claim fails on the code.  After `strandRun` — a resting sell
at 100 fully crossed by a buy at the same price — the ask ladder still
contains the price level at 100 with `order_count = 0` and an empty
order list, while the price index and order index are empty.  The
aggressor joined the resting ask's level (the price index is keyed by
price only), and the final cleanup calls
`removePriceLevel(price_level, order_raw->side)` with the aggressor's
side `Buy`, which searches `bids_`, fails to find the level, and leaves
the emptied level stranded inside `asks_` (with its price-index entry
already erased). -/
theorem empty_level_stranded_in_ladder :
    (processAll Book.empty strandRun).map
        (fun r => (r.1.asks.map (fun l => (l.price, l.order_count, l.orders)),
                   r.1.price_index, getOrderCount r.1))
      = some ([(100, 0, [])], [], 0) := by
  with_unfolding_all decide

/-- C4: the claim fails on the code.  `fokRun` adds a sell of 5 at 100
and then an FOK buy of 10 at 101: the opposite side holds only 5 < 10,
so the claim requires a rejection with no state change.  Instead the code
never reads `tif` — one trade is emitted and the FOK order rests with a
residual of 5 as if it were GTC (it is indexed, and is the best bid). -/
theorem fok_partially_fills_and_rests :
    (processAll Book.empty fokRun).map
        (fun r => (r.2.length, remB r.1 2, (alookup r.1.order_index 2).isSome,
                   bestBid r.1))
      = some (1, 5, true, some 101) := by
  with_unfolding_all decide

/-- C6: the claim fails on the code.  `ghostRun` rests a sell of 10,
partially fills it (filled = 3), then modifies its quantity to 2 ≤ 3.
`processModifyOrder` clamps `filled_quantity` to 2 in place: the order's
status stays `PartiallyFilled` (never `Filled`), it remains linked in its
price level and present in the order index, and still counts toward the
book's order count — a zero-remaining "ghost" order. -/
theorem modify_below_filled_leaves_ghost :
    (processAll Book.empty ghostRun).map
        (fun r => ((r.1.lookupOrder 1).map (fun o => (o.status, o.remainingQuantity)),
                   r.1.asks.map (fun l => (l.orders, l.order_count)),
                   (alookup r.1.order_index 1).isSome, getOrderCount r.1))
      = some (some (OrderStatus.PartiallyFilled, 0), [([1], 1)], true, 1) := by
  with_unfolding_all decide

/-- C5: the claim fails on the code.  With a full shard, `spsc_queue::push`
returns `false` and the command is dropped, but `OrderBook::addOrder`
discards the push result and still returns `success(order.id)`; no
`QueueFull` error exists anywhere in the code. -/
theorem addOrder_full_shard_reports_success :
    (spscPush fullShard (addReq 7 Side.Buy 100 10)).1 = false ∧
      addOrder fullShard (materialize (addReq 7 Side.Buy 100 10))
        = (OrderResult.success 7, fullShard) := by
  constructor
  · simp [spscPush, fullShard, List.length_replicate]
  · simp [addOrder, spscPush, fullShard, List.length_replicate, materialize, addReq]

end VertexLadder

namespace VertexLadder

/-! ## Lemmas about the modify sub-steps -/

theorem orders_updOrder (b : Book) (i : OrderId) (f : Order → Order) :
    (b.updOrder i f).orders = b.orders.map (fun p => if p.1 = i then (p.1, f p.2) else p) := rfl

theorem alookup_map_const {α β : Type} [DecidableEq α] (l : List (α × β)) (i : α)
    (v : β) (j : α) :
    alookup (l.map fun p => if p.1 = i then (p.1, v) else p) j =
      if j = i then (alookup l j).map (fun _ => v) else alookup l j :=
  alookup_map_upd l i (fun _ => v) j

theorem lookupOrder_modifyPriceStep (b : Book) (id : OrderId) (o : Order)
    (loc : OrderLocation) (np : Price) :
    (modifyPriceStep b id o loc np).1.lookupOrder id =
      (b.lookupOrder id).map (fun _ => { o with price := np }) := by
  unfold modifyPriceStep
  dsimp only
  unfold Book.lookupOrder
  simp only [orders_updLevel, orders_findOrCreatePriceLevel, orders_updOrder,
    orders_cleanupLevelIf]
  rw [alookup_map_const, if_pos rfl]

theorem lookupOrder_modifyQtyStep (b : Book) (id : OrderId) (o : Order)
    (loc : OrderLocation) (nq : Quantity) :
    (modifyQtyStep b id o loc nq).lookupOrder id =
      (b.lookupOrder id).map (fun _ => { o with
        quantity := nq
        filled_quantity := if nq < o.filled_quantity then nq else o.filled_quantity }) := by
  unfold modifyQtyStep
  dsimp only
  unfold Book.lookupOrder
  simp only [orders_updLevel, orders_updOrder]
  rw [alookup_map_const, if_pos rfl]

theorem levelShape_modifyQtyStep_bids (b : Book) (id : OrderId) (o : Order)
    (loc : OrderLocation) (nq : Quantity) :
    levelShape (modifyQtyStep b id o loc nq).bids = levelShape b.bids := by
  unfold modifyQtyStep
  dsimp only
  show levelShape ((b.bids.map _).map _) = _
  rw [levelShape_map_total, levelShape_map_total]

theorem levelShape_modifyQtyStep_asks (b : Book) (id : OrderId) (o : Order)
    (loc : OrderLocation) (nq : Quantity) :
    levelShape (modifyQtyStep b id o loc nq).asks = levelShape b.asks := by
  unfold modifyQtyStep
  dsimp only
  show levelShape ((b.asks.map _).map _) = _
  rw [levelShape_map_total, levelShape_map_total]

theorem order_index_modifyQtyStep (b : Book) (id : OrderId) (o : Order)
    (loc : OrderLocation) (nq : Quantity) :
    (modifyQtyStep b id o loc nq).order_index = b.order_index := rfl

/-- C9: processing a cancel whose id is not in the order index returns
before touching any state (the book is returned unchanged) and only logs
a warning (the boolean output); and the producer-side `cancelOrder`
always reports `success(true)` to the caller, never an error. -/
theorem cancel_unknown_id_is_noop (b : Book) (id : OrderId)
    (h : alookup b.order_index id = none) :
    processCancelOrder b id = (b, true) ∧
      ∀ q, (cancelOrder q id).1 = CancelResult.success true := by
  constructor
  · unfold processCancelOrder
    rw [h]
  · intro q
    rfl

/-- Witness for `cancel_unknown_id_is_noop` at a concrete book. -/
theorem cancel_unknown_id_is_noop_witness :
    alookup sampleBook.order_index 42 = none ∧
      processCancelOrder sampleBook 42 = (sampleBook, true) :=
  ⟨rfl, (cancel_unknown_id_is_noop sampleBook 42 rfl).1⟩

/-- C10: the public modify interface uses `0` as an "unchanged" sentinel,
and ignores small price changes entirely.  For a resting order `o`:
(i) `new_quantity = 0` leaves the order's quantity unchanged for every
`new_price` (so no modify can set a quantity to zero);
(ii) `new_price = 0` leaves the order's price unchanged for every
`new_quantity`;
(iii) when the price change is at most `MinPriceIncrement = 0.01` the
price arm is skipped entirely: every level keeps its identity, price and
FIFO queue (so the order stays in its current level with its time
priority intact), and the order index is untouched. -/
theorem modify_zero_sentinels (b : Book) (id : OrderId) (o : Order)
    (ho : b.lookupOrder id = some o) :
    (∀ np, ((processModifyOrder b id np 0).lookupOrder id).map Order.quantity
        = some o.quantity) ∧
    (∀ nq, ((processModifyOrder b id 0 nq).lookupOrder id).map Order.price
        = some o.price) ∧
    (∀ np nq, ratAbs (o.price - np) ≤ MinPriceIncrement →
      levelShape (processModifyOrder b id np nq).bids = levelShape b.bids ∧
      levelShape (processModifyOrder b id np nq).asks = levelShape b.asks ∧
      (processModifyOrder b id np nq).order_index = b.order_index) := by
  refine ⟨?_, ?_, ?_⟩
  · intro np
    unfold processModifyOrder
    cases hloc : alookup b.order_index id with
    | none => rw [ho]; rfl
    | some loc =>
      rw [ho]
      dsimp only
      rw [if_neg (lt_irrefl 0)]
      split
      · rw [lookupOrder_modifyPriceStep, ho]
        rfl
      · rw [ho]
        rfl
  · intro nq
    unfold processModifyOrder
    cases hloc : alookup b.order_index id with
    | none => rw [ho]; rfl
    | some loc =>
      rw [ho]
      dsimp only
      rw [if_neg (show ¬ ((0 : Price) < 0 ∧ MinPriceIncrement < ratAbs (o.price - 0)) from
        fun hc => lt_irrefl 0 hc.1)]
      by_cases hq : 0 < nq
      · rw [if_pos hq]
        rw [lookupOrder_modifyQtyStep, ho]
        rfl
      · rw [if_neg hq, ho]
        rfl
  · intro np nq h
    unfold processModifyOrder
    cases hloc : alookup b.order_index id with
    | none => rw [ho]; exact ⟨rfl, rfl, rfl⟩
    | some loc =>
      rw [ho]
      dsimp only
      rw [if_neg (show ¬ (0 < np ∧ MinPriceIncrement < ratAbs (o.price - np)) from
        fun hc => absurd hc.2 (not_lt.2 h))]
      by_cases hq : 0 < nq
      · rw [if_pos hq]
        exact ⟨levelShape_modifyQtyStep_bids .., levelShape_modifyQtyStep_asks ..,
          order_index_modifyQtyStep ..⟩
      · rw [if_neg hq]
        exact ⟨rfl, rfl, rfl⟩

/-- Witness for `modify_zero_sentinels`: all three sentinels evaluated on
`sampleBook` (quantity kept under a re-price to 105 with `nq = 0`, price
kept under a resize to 7 with `np = 0`, and a same-price modify leaving
the ladder shape and index untouched). -/
theorem modify_zero_sentinels_witness :
    sampleBook.lookupOrder 1 = some sampleOrder ∧
      ((processModifyOrder sampleBook 1 105 0).lookupOrder 1).map Order.quantity
        = some sampleOrder.quantity ∧
      ((processModifyOrder sampleBook 1 0 7).lookupOrder 1).map Order.price
        = some sampleOrder.price ∧
      ratAbs (sampleOrder.price - 100) ≤ MinPriceIncrement ∧
      levelShape (processModifyOrder sampleBook 1 100 7).asks = levelShape sampleBook.asks :=
  ⟨rfl, (modify_zero_sentinels sampleBook 1 sampleOrder rfl).1 105,
    (modify_zero_sentinels sampleBook 1 sampleOrder rfl).2.1 7,
    by norm_num [ratAbs, sampleOrder, MinPriceIncrement],
    ((modify_zero_sentinels sampleBook 1 sampleOrder rfl).2.2 100 7
      (by norm_num [ratAbs, sampleOrder, MinPriceIncrement])).2.1⟩

end VertexLadder

namespace VertexLadder

/-! ## Remaining-quantity and heap-shape lemmas used by the matching proofs -/

theorem remainingQuantity_fill (o : Order) (q : Quantity) :
    (o.fill q).remainingQuantity = o.remainingQuantity - q := by
  unfold Order.fill Order.remainingQuantity
  dsimp only
  exact (Nat.sub_sub o.quantity o.filled_quantity q).symm

theorem id_fill (o : Order) (q : Quantity) : (o.fill q).id = o.id := rfl

theorem mem_of_alookup_some {α β : Type} [DecidableEq α] {l : List (α × β)} {k : α} {v : β}
    (h : alookup l k = some v) : (k, v) ∈ l := by
  induction l with
  | nil => simp [alookup] at h
  | cons p rest ih =>
    obtain ⟨k', v'⟩ := p
    simp only [alookup] at h
    by_cases hk : k' = k
    · subst hk
      rw [if_pos rfl] at h
      cases h
      exact List.mem_cons_self _ _
    · rw [if_neg hk] at h
      exact List.mem_cons_of_mem _ (ih h)

theorem aerase_sublist {α β : Type} [DecidableEq α] (l : List (α × β)) (k : α) :
    List.Sublist (aerase l k) l := by
  induction l with
  | nil => simp [aerase]
  | cons p rest ih =>
    obtain ⟨k', v⟩ := p
    simp only [aerase]
    by_cases hk : k' = k
    · rw [if_pos hk]
      exact List.sublist_cons_self _ _
    · rw [if_neg hk]
      exact ih.cons₂ _

theorem keys_map_upd {α β : Type} [DecidableEq α] (l : List (α × β)) (i : α) (f : β → β) :
    (l.map fun p => if p.1 = i then (p.1, f p.2) else p).map Prod.fst = l.map Prod.fst := by
  rw [List.map_map]
  apply List.map_congr_left
  intro p _
  by_cases h : p.1 = i <;> simp [h]

/-- `remB` through a heap write that fills order `i` by `q`.  Holds
unconditionally: a dead id stays dead (and `0 - q = 0`). -/
theorem remB_updOrder_fill (b : Book) (i : OrderId) (q : Quantity) (j : OrderId) :
    remB (b.updOrder i (Order.fill · q)) j = if j = i then remB b j - q else remB b j := by
  unfold remB
  rw [lookupOrder_updOrder]
  by_cases hj : j = i
  · rw [if_pos hj, if_pos hj]
    cases b.lookupOrder j with
    | none => simp
    | some o => exact remainingQuantity_fill o q
  · rw [if_neg hj, if_neg hj]

theorem remB_deleteOrder (b : Book) (i : OrderId) (j : OrderId) (hnd : HeapNodup b) :
    remB (b.deleteOrder i) j = if j = i then 0 else remB b j := by
  unfold remB Book.lookupOrder Book.deleteOrder
  dsimp only
  rw [alookup_aerase _ _ _ hnd]
  by_cases hj : j = i
  · rw [if_pos hj, if_pos hj]
  · rw [if_neg hj, if_neg hj]

theorem remB_updLevel (b : Book) (lid : Nat) (f : PriceLevel → PriceLevel) (j : OrderId) :
    remB (b.updLevel lid f) j = remB b j := rfl

theorem remB_eraseIndex (b : Book) (i : OrderId) (j : OrderId) :
    remB { b with order_index := aerase b.order_index i } j = remB b j := rfl

theorem remB_removePriceLevel (b : Book) (lid : Nat) (s : Side) (j : OrderId) :
    remB (removePriceLevel b lid s) j = remB b j := by
  unfold remB Book.lookupOrder
  rw [orders_removePriceLevel]

theorem remB_cleanupLevelIf (b : Book) (lid : Nat) (s : Side) (j : OrderId) :
    remB (cleanupLevelIf b lid s) j = remB b j := by
  unfold remB Book.lookupOrder
  rw [orders_cleanupLevelIf]

theorem sameRems_refl (b : Book) : SameRems b b := fun _ => rfl

theorem sameRems_trans {a b c : Book} (h1 : SameRems a b) (h2 : SameRems b c) :
    SameRems a c := fun j => (h2 j).trans (h1 j)

theorem heapNodup_updOrder (b : Book) (i : OrderId) (f : Order → Order)
    (h : HeapNodup b) : HeapNodup (b.updOrder i f) := by
  unfold HeapNodup Book.updOrder at *
  dsimp only
  rw [keys_map_upd]
  exact h

theorem heapNodup_deleteOrder (b : Book) (i : OrderId) (h : HeapNodup b) :
    HeapNodup (b.deleteOrder i) := by
  unfold HeapNodup Book.deleteOrder at *
  dsimp only
  exact ((aerase_sublist b.orders i).map Prod.fst).nodup h

theorem heapIdsMatch_updOrder (b : Book) (i : OrderId) (f : Order → Order)
    (hf : ∀ o, (f o).id = o.id) (h : HeapIdsMatch b) : HeapIdsMatch (b.updOrder i f) := by
  intro p hp
  unfold Book.updOrder at hp
  dsimp only at hp
  obtain ⟨q, hq, hpq⟩ := List.mem_map.1 hp
  by_cases hqi : q.1 = i
  · rw [if_pos hqi] at hpq
    subst hpq
    dsimp only
    rw [hf]
    exact h q hq
  · rw [if_neg hqi] at hpq
    subst hpq
    exact h q hq

theorem heapIdsMatch_deleteOrder (b : Book) (i : OrderId) (h : HeapIdsMatch b) :
    HeapIdsMatch (b.deleteOrder i) := by
  intro p hp
  exact h p ((aerase_sublist b.orders i).mem hp)

theorem heapNodup_updLevel (b : Book) (lid : Nat) (f : PriceLevel → PriceLevel)
    (h : HeapNodup b) : HeapNodup (b.updLevel lid f) := h

theorem heapIdsMatch_updLevel (b : Book) (lid : Nat) (f : PriceLevel → PriceLevel)
    (h : HeapIdsMatch b) : HeapIdsMatch (b.updLevel lid f) := h

theorem heapNodup_eraseIndex (b : Book) (i : OrderId) (h : HeapNodup b) :
    HeapNodup { b with order_index := aerase b.order_index i } := h

theorem heapIdsMatch_eraseIndex (b : Book) (i : OrderId) (h : HeapIdsMatch b) :
    HeapIdsMatch { b with order_index := aerase b.order_index i } := h

/-- The id looked up in a well-keyed heap is the order's own id. -/
theorem id_of_lookupOrder {b : Book} {i : OrderId} {o : Order}
    (hm : HeapIdsMatch b) (h : b.lookupOrder i = some o) : o.id = i :=
  hm (i, o) (mem_of_alookup_some h)

end VertexLadder

namespace VertexLadder

/-! ## Level-pointer lemmas -/

theorem lid_of_findLevelById {b : Book} {lid : Nat} {lvl : PriceLevel}
    (h : b.findLevelById lid = some lvl) : lvl.lid = lid := by
  have := List.find?_some h
  simpa using this

theorem mem_of_findLevelById {b : Book} {lid : Nat} {lvl : PriceLevel}
    (h : b.findLevelById lid = some lvl) : lvl ∈ b.bids ++ b.asks :=
  List.mem_of_find?_eq_some h

theorem findLevelById_updLevel (b : Book) (lid : Nat) (f : PriceLevel → PriceLevel)
    (hf : ∀ l, (f l).lid = l.lid) (j : Nat) :
    (b.updLevel lid f).findLevelById j =
      (b.findLevelById j).map (fun l => if l.lid = lid then f l else l) := by
  unfold Book.findLevelById Book.updLevel
  dsimp only
  rw [← List.map_append, List.find?_map]
  have hpg : ((fun l : PriceLevel => l.lid == j) ∘ (fun l => if l.lid = lid then f l else l))
      = (fun l : PriceLevel => l.lid == j) := by
    funext l
    by_cases h : l.lid = lid
    · simp [Function.comp, h, hf]
    · simp [Function.comp, h]
  rw [hpg]

theorem findLevelById_updLevel_self {b : Book} {lid : Nat} {lvl : PriceLevel}
    (f : PriceLevel → PriceLevel) (hf : ∀ l, (f l).lid = l.lid)
    (h : b.findLevelById lid = some lvl) :
    (b.updLevel lid f).findLevelById lid = some (f lvl) := by
  rw [findLevelById_updLevel b lid f hf lid, h]
  dsimp only [Option.map]
  rw [if_pos (lid_of_findLevelById h)]

theorem findLevelById_updOrder (b : Book) (i : OrderId) (f : Order → Order) (lid : Nat) :
    (b.updOrder i f).findLevelById lid = b.findLevelById lid := rfl

theorem findLevelById_deleteOrder (b : Book) (i : OrderId) (lid : Nat) :
    (b.deleteOrder i).findLevelById lid = b.findLevelById lid := rfl

theorem findLevelById_eraseIndex (b : Book) (i : OrderId) (lid : Nat) :
    ({ b with order_index := aerase b.order_index i } : Book).findLevelById lid
      = b.findLevelById lid := rfl

theorem find?_lid_of_mem {ls : List PriceLevel} (hnd : (ls.map PriceLevel.lid).Nodup)
    {lvl : PriceLevel} (hm : lvl ∈ ls) : ls.find? (fun l => l.lid == lvl.lid) = some lvl := by
  induction ls with
  | nil => cases hm
  | cons a rest ih =>
    simp only [List.map_cons, List.nodup_cons] at hnd
    rcases List.mem_cons.1 hm with h | h
    · subst h
      simp [List.find?_cons]
    · have ha : (a.lid == lvl.lid) = false := by
        rw [beq_eq_false_iff_ne]
        intro hEq
        exact hnd.1 (hEq ▸ List.mem_map_of_mem PriceLevel.lid h)
      rw [List.find?_cons, ha]
      exact ih hnd.2 h

theorem findLevelById_eq_of_mem {b : Book} {lvl : PriceLevel} (hnd : LidsNodup b)
    (hm : lvl ∈ b.bids ++ b.asks) : b.findLevelById lvl.lid = some lvl :=
  find?_lid_of_mem hnd hm

/-! ## `executeTrade` lemmas -/

theorem executeTrade_price (b : Book) (i : OrderId) (s : Side) (m : OrderId) (p : Price)
    (q : Quantity) : (executeTrade b i s m p q).2.price = p := rfl

theorem executeTrade_quantity (b : Book) (i : OrderId) (s : Side) (m : OrderId) (p : Price)
    (q : Quantity) : (executeTrade b i s m p q).2.quantity = q := rfl

theorem lookupOrder_executeTrade (b : Book) (i : OrderId) (s : Side) (m : OrderId)
    (p : Price) (q : Quantity) (j : OrderId) :
    (executeTrade b i s m p q).1.lookupOrder j =
      (if j = m then
        (if j = i then (b.lookupOrder j).map (Order.fill · q) else b.lookupOrder j).map
          (Order.fill · q)
      else
        (if j = i then (b.lookupOrder j).map (Order.fill · q) else b.lookupOrder j)) := by
  have h1 : (executeTrade b i s m p q).1.lookupOrder j
      = ((b.updOrder i (Order.fill · q)).updOrder m (Order.fill · q)).lookupOrder j := rfl
  rw [h1, lookupOrder_updOrder, lookupOrder_updOrder]

theorem remB_executeTrade (b : Book) (i : OrderId) (s : Side) (m : OrderId) (p : Price)
    (q : Quantity) (j : OrderId) :
    remB (executeTrade b i s m p q).1 j =
      (if j = m then (if j = i then remB b j - q else remB b j) - q
       else (if j = i then remB b j - q else remB b j)) := by
  have h1 : remB (executeTrade b i s m p q).1 j
      = remB ((b.updOrder i (Order.fill · q)).updOrder m (Order.fill · q)) j := rfl
  rw [h1, remB_updOrder_fill, remB_updOrder_fill]

theorem heapNodup_executeTrade (b : Book) (i : OrderId) (s : Side) (m : OrderId)
    (p : Price) (q : Quantity) (h : HeapNodup b) :
    HeapNodup (executeTrade b i s m p q).1 := by
  have h2 : HeapNodup ((b.updOrder i (Order.fill · q)).updOrder m (Order.fill · q)) :=
    heapNodup_updOrder _ _ _ (heapNodup_updOrder _ _ _ h)
  exact h2

theorem heapIdsMatch_executeTrade (b : Book) (i : OrderId) (s : Side) (m : OrderId)
    (p : Price) (q : Quantity) (h : HeapIdsMatch b) :
    HeapIdsMatch (executeTrade b i s m p q).1 := by
  have h2 : HeapIdsMatch ((b.updOrder i (Order.fill · q)).updOrder m (Order.fill · q)) :=
    heapIdsMatch_updOrder _ _ _ (fun o => id_fill o q)
      (heapIdsMatch_updOrder _ _ _ (fun o => id_fill o q) h)
  exact h2

theorem findLevelById_executeTrade (b : Book) (i : OrderId) (s : Side) (m : OrderId)
    (p : Price) (q : Quantity) (lid : Nat) :
    (executeTrade b i s m p q).1.findLevelById lid = b.findLevelById lid := rfl

/-! ## `TradesOk` utilities -/

theorem remB_eq_of_lookup {b : Book} {i : OrderId} {o : Order}
    (h : b.lookupOrder i = some o) : remB b i = o.remainingQuantity := by
  unfold remB
  rw [h]

theorem TradesOk.pre {incId : OrderId} {b b' bf : Book} {ts : List Trade}
    (h : SameRems b b') (ht : TradesOk incId b' ts bf) : TradesOk incId b ts bf := by
  cases ht with
  | nil _ _ hsr => exact TradesOk.nil _ _ (sameRems_trans h hsr)
  | cons _ bm b2 _ m t ts hsr hin hq hpos h1 h2 htail =>
    exact TradesOk.cons _ bm b2 _ m t ts (sameRems_trans h hsr) hin hq hpos h1 h2 htail

theorem TradesOk.post {incId : OrderId} {b b1 b2 : Book} {ts : List Trade}
    (ht : TradesOk incId b ts b1) (h : SameRems b1 b2) : TradesOk incId b ts b2 := by
  induction ht with
  | nil _ _ hsr => exact TradesOk.nil _ _ (sameRems_trans hsr h)
  | cons _ bm bmid _ m t ts hsr hin hq hpos h1 h2 _ ih =>
    exact TradesOk.cons _ bm bmid _ m t ts hsr hin hq hpos h1 h2 (ih h)

theorem TradesOk.append {incId : OrderId} {b b1 b2 : Book} {ts1 ts2 : List Trade}
    (h1 : TradesOk incId b ts1 b1) (h2 : TradesOk incId b1 ts2 b2) :
    TradesOk incId b (ts1 ++ ts2) b2 := by
  induction h1 with
  | nil _ _ hsr => exact TradesOk.pre hsr h2
  | cons _ bm bmid _ m t ts hsr hin hq hpos he1 he2 _ ih =>
    exact TradesOk.cons _ bm bmid _ m t _ hsr hin hq hpos he1 he2 (ih h2)

/-- The FIFO loop exits immediately once the incoming order is fully
filled (or freed). -/
theorem matchLoop_of_filled {incId : OrderId} {incSide : Side} {lvlId : Nat}
    {lvlPrice : Price} {b : Book} (ids : List OrderId)
    (h : incFilledOrDead b incId) :
    matchLoop incId incSide lvlId lvlPrice b ids = (b, []) := by
  cases ids with
  | nil => rfl
  | cons cur rest => simp only [matchLoop, if_pos h]

end VertexLadder

namespace VertexLadder

/-! ## More `Order`/`PriceLevel` facts for the matching proofs -/

theorem isFullyFilled_fill (o : Order) (q : Quantity) :
    (o.fill q).isFullyFilled ↔ o.quantity ≤ o.filled_quantity + q := Iff.rfl

theorem lid_updateQuantity (l : PriceLevel) (o : Order) (q : Quantity) :
    (PriceLevel.updateQuantity l o q).lid = l.lid := by
  unfold PriceLevel.updateQuantity PriceLevel.removeOrder
  dsimp only
  split <;> split <;> rfl

theorem price_updateQuantity (l : PriceLevel) (o : Order) (q : Quantity) :
    (PriceLevel.updateQuantity l o q).price = l.price := by
  unfold PriceLevel.updateQuantity PriceLevel.removeOrder
  dsimp only
  split <;> split <;> rfl

theorem orders_updateQuantity_full (l : PriceLevel) (o : Order) (q : Quantity)
    (h : o.isFullyFilled) :
    (PriceLevel.updateQuantity l o q).orders = l.orders.erase o.id := by
  unfold PriceLevel.updateQuantity PriceLevel.removeOrder
  dsimp only
  rw [if_pos h]
  split <;> rfl

theorem lid_removeOrder (l : PriceLevel) (o : Order) :
    (PriceLevel.removeOrder l o).lid = l.lid := rfl

theorem incFilledOrDead_of_none {b : Book} {i : OrderId} (h : b.lookupOrder i = none) :
    incFilledOrDead b i := by
  unfold incFilledOrDead
  rw [h]
  trivial

theorem incFilledOrDead_of_filled {b : Book} {i : OrderId} {o : Order}
    (h : b.lookupOrder i = some o) (ho : o.isFullyFilled) : incFilledOrDead b i := by
  unfold incFilledOrDead
  rw [h]
  exact ho

theorem not_filled_of_not_dead {b : Book} {i : OrderId} {o : Order}
    (h : ¬ incFilledOrDead b i) (hl : b.lookupOrder i = some o) : ¬ o.isFullyFilled := by
  intro hf
  exact h (incFilledOrDead_of_filled hl hf)

theorem lookupOrder_updLevel (b : Book) (lid : Nat) (f : PriceLevel → PriceLevel)
    (j : OrderId) : (b.updLevel lid f).lookupOrder j = b.lookupOrder j := rfl

theorem lookupOrder_deleteOrder_self (b : Book) (i : OrderId) (h : HeapNodup b) :
    (b.deleteOrder i).lookupOrder i = none := by
  unfold Book.lookupOrder Book.deleteOrder
  dsimp only
  rw [alookup_aerase _ _ _ h, if_pos rfl]

end VertexLadder

namespace VertexLadder

/-- Core induction for C2: the FIFO matching loop over a level emits a
price-time-sound trade stream. -/
theorem matchLoop_tradesOk (incId : OrderId) (incSide : Side) (lvlId : Nat)
    (lvlPrice : Price) :
    ∀ (ids : List OrderId) (b : Book) (lvl : PriceLevel),
      HeapNodup b → HeapIdsMatch b →
      b.findLevelById lvlId = some lvl → lvl.price = lvlPrice → lvl.orders = ids →
      TradesOk incId b (matchLoop incId incSide lvlId lvlPrice b ids).2
        (matchLoop incId incSide lvlId lvlPrice b ids).1 := by
  intro ids
  induction ids with
  | nil =>
    intro b lvl _ _ _ _ _
    exact TradesOk.nil _ _ (sameRems_refl b)
  | cons cur rest ih =>
    intro b lvl hnd him hfind hprice horders
    by_cases hdead : incFilledOrDead b incId
    · rw [matchLoop_of_filled _ hdead]
      exact TradesOk.nil _ _ (sameRems_refl b)
    · simp only [matchLoop, if_neg hdead]
      cases hinc : b.lookupOrder incId with
      | none => exact absurd (incFilledOrDead_of_none hinc) hdead
      | some inc =>
      cases hcur : b.lookupOrder cur with
      | none => exact TradesOk.nil _ _ (sameRems_refl b)
      | some curO =>
      dsimp only
      by_cases htq : min inc.remainingQuantity curO.remainingQuantity = 0
      · rw [if_pos htq]
        by_cases hrem : curO.remainingQuantity = 0
        · rw [if_pos hrem]
          -- ghost removal; the heap loses a zero-remaining order
          have hcurId : curO.id = cur := id_of_lookupOrder him hcur
          have hnd3 : HeapNodup ((({ b.updLevel lvlId (PriceLevel.removeOrder · curO) with
              order_index := aerase (b.updLevel lvlId
                (PriceLevel.removeOrder · curO)).order_index cur } : Book)).deleteOrder cur) :=
            heapNodup_deleteOrder _ _ hnd
          have him3 : HeapIdsMatch ((({ b.updLevel lvlId (PriceLevel.removeOrder · curO) with
              order_index := aerase (b.updLevel lvlId
                (PriceLevel.removeOrder · curO)).order_index cur } : Book)).deleteOrder cur) :=
            heapIdsMatch_deleteOrder _ _ him
          have hf3 : ((({ b.updLevel lvlId (PriceLevel.removeOrder · curO) with
              order_index := aerase (b.updLevel lvlId
                (PriceLevel.removeOrder · curO)).order_index cur } : Book)).deleteOrder
                cur).findLevelById lvlId = some (PriceLevel.removeOrder lvl curO) := by
            rw [findLevelById_deleteOrder, findLevelById_eraseIndex]
            exact findLevelById_updLevel_self _ (fun l => rfl) hfind
          have horders3 : (PriceLevel.removeOrder lvl curO).orders = rest := by
            unfold PriceLevel.removeOrder
            dsimp only
            rw [hcurId, horders, List.erase_cons_head]
          have hsame : SameRems b ((({ b.updLevel lvlId (PriceLevel.removeOrder · curO) with
              order_index := aerase (b.updLevel lvlId
                (PriceLevel.removeOrder · curO)).order_index cur } : Book)).deleteOrder cur) := by
            intro j
            rw [remB_deleteOrder _ _ j
              (heapNodup_eraseIndex _ _ (heapNodup_updLevel _ _ _ hnd))]
            by_cases hj : j = cur
            · rw [if_pos hj, hj]
              rw [remB_eq_of_lookup hcur]
              exact hrem.symm
            · rw [if_neg hj]
              rfl
          exact TradesOk.pre hsame (ih _ _ hnd3 him3 hf3 hprice horders3)
        · rw [if_neg hrem]
          exact TradesOk.nil _ _ (sameRems_refl b)
      · rw [if_neg htq]
        set tq := min inc.remainingQuantity curO.remainingQuantity with htqd
        clear_value tq
        cases hF : (executeTrade b incId incSide cur lvlPrice tq).1.lookupOrder cur with
        | none =>
          exfalso
          rw [lookupOrder_executeTrade, if_pos rfl] at hF
          by_cases hci : cur = incId
          · rw [if_pos hci, hci, hinc] at hF
            simp at hF
          · rw [if_neg hci, hcur] at hF
            simp at hF
        | some curF =>
          dsimp only
          have hcurId : curO.id = cur := id_of_lookupOrder him hcur
          have hIncNF : ¬ inc.isFullyFilled := not_filled_of_not_dead hdead hinc
          have hndT : HeapNodup (executeTrade b incId incSide cur lvlPrice tq).1 :=
            heapNodup_executeTrade _ _ _ _ _ _ hnd
          have himT : HeapIdsMatch (executeTrade b incId incSide cur lvlPrice tq).1 :=
            heapIdsMatch_executeTrade _ _ _ _ _ _ him
          have hfindT : (executeTrade b incId incSide cur lvlPrice tq).1.findLevelById lvlId
              = some lvl := by
            rw [findLevelById_executeTrade]
            exact hfind
          have hInL : InLevelAtPrice b cur
              (executeTrade b incId incSide cur lvlPrice tq).2.price := by
            refine ⟨lvl, mem_of_findLevelById hfind, ?_, ?_⟩
            · rw [horders]
              exact List.mem_cons_self _ _
            · rw [executeTrade_price, hprice]
          have hq : (executeTrade b incId incSide cur lvlPrice tq).2.quantity
              = min (remB b incId) (remB b cur) := by
            rw [executeTrade_quantity, remB_eq_of_lookup hinc, remB_eq_of_lookup hcur]
            exact htqd
          have hpos : 0 < (executeTrade b incId incSide cur lvlPrice tq).2.quantity := by
            rw [executeTrade_quantity]
            exact Nat.pos_of_ne_zero htq
          have hIncRem : remB b incId = inc.remainingQuantity := remB_eq_of_lookup hinc
          have hCurRem : remB b cur = curO.remainingQuantity := remB_eq_of_lookup hcur
          by_cases hci : cur = incId
          · -- the incoming order matched itself (it had joined the opposite
            -- side's level through the shared price index): both fills hit
            -- the same heap object, it ends fully filled and freed, and the
            -- loop exits on the stale `isFullyFilled` read
            subst hci
            have hio : inc = curO := by
              rw [hinc] at hcur
              exact Option.some.inj hcur
            have htqrem : tq = curO.remainingQuantity := by
              rw [htqd, hio, min_self]
            have hcurFval : curF = (curO.fill tq).fill tq := by
              rw [lookupOrder_executeTrade, if_pos rfl, if_pos rfl, hcur] at hF
              simp only [Option.map] at hF
              exact (Option.some.inj hF).symm
            have h1 : ¬ @LE.le Nat _ curO.quantity curO.filled_quantity := by
              rw [← hio]
              exact hIncNF
            have h2 : @Eq Nat tq (curO.quantity - curO.filled_quantity) := htqrem
            have hful : curF.isFullyFilled := by
              rw [hcurFval]
              show @LE.le Nat _ curO.quantity (curO.filled_quantity + tq + tq)
              omega
            rw [if_pos hful]
            have hnone : ((({ (executeTrade b cur incSide cur lvlPrice
                tq).1.updLevel lvlId (fun x => x.updateQuantity curF tq) with
                order_index := aerase ((executeTrade b cur incSide cur lvlPrice
                  tq).1.updLevel lvlId
                  (fun x => x.updateQuantity curF tq)).order_index cur } : Book)).deleteOrder
                  cur).lookupOrder cur = none :=
              lookupOrder_deleteOrder_self _ _
                (heapNodup_eraseIndex _ _ (heapNodup_updLevel _ _ _ hndT))
            have hdone := incFilledOrDead_of_none hnone
            rw [matchLoop_of_filled rest hdone]
            refine TradesOk.cons b b _ _ cur _ [] (sameRems_refl b) hInL hq hpos ?_ ?_
              (TradesOk.nil _ _ (sameRems_refl _))
            · rw [executeTrade_quantity]
              unfold remB
              rw [hnone]
              rw [show (b.lookupOrder cur) = some curO from hcur]
              show @Eq Nat 0 (curO.quantity - curO.filled_quantity - tq)
              omega
            · rw [executeTrade_quantity]
              unfold remB
              rw [hnone]
              rw [show (b.lookupOrder cur) = some curO from hcur]
              show @Eq Nat 0 (curO.quantity - curO.filled_quantity - tq)
              omega
          · -- a genuine maker ahead of the incoming order
            have hcurFval : curF = curO.fill tq := by
              rw [lookupOrder_executeTrade, if_pos rfl, if_neg hci, hcur] at hF
              simp only [Option.map] at hF
              exact (Option.some.inj hF).symm
            have hcurFid : curF.id = cur := by
              rw [hcurFval]
              rw [id_fill]
              exact hcurId
            have h6 : tq = min (inc.quantity - inc.filled_quantity)
                (curO.quantity - curO.filled_quantity) := htqd
            have h5 : ¬ (inc.quantity ≤ inc.filled_quantity) := hIncNF
            by_cases hful : curF.isFullyFilled
            · rw [if_pos hful]
              have h7 : @LE.le Nat _ curO.quantity (curO.filled_quantity + tq) := by
                rw [hcurFval] at hful
                exact hful
              have hnd5 : HeapNodup ((({ (executeTrade b incId incSide cur lvlPrice
                  tq).1.updLevel lvlId (fun x => x.updateQuantity curF tq) with
                  order_index := aerase ((executeTrade b incId incSide cur lvlPrice
                    tq).1.updLevel lvlId
                    (fun x => x.updateQuantity curF tq)).order_index cur } : Book)).deleteOrder
                    cur) :=
                heapNodup_deleteOrder _ _
                  (heapNodup_eraseIndex _ _ (heapNodup_updLevel _ _ _ hndT))
              have him5 : HeapIdsMatch ((({ (executeTrade b incId incSide cur lvlPrice
                  tq).1.updLevel lvlId (fun x => x.updateQuantity curF tq) with
                  order_index := aerase ((executeTrade b incId incSide cur lvlPrice
                    tq).1.updLevel lvlId
                    (fun x => x.updateQuantity curF tq)).order_index cur } : Book)).deleteOrder
                    cur) :=
                heapIdsMatch_deleteOrder _ _
                  (heapIdsMatch_eraseIndex _ _ (heapIdsMatch_updLevel _ _ _ himT))
              have hfind5 : ((({ (executeTrade b incId incSide cur lvlPrice
                  tq).1.updLevel lvlId (fun x => x.updateQuantity curF tq) with
                  order_index := aerase ((executeTrade b incId incSide cur lvlPrice
                    tq).1.updLevel lvlId
                    (fun x => x.updateQuantity curF tq)).order_index cur } : Book)).deleteOrder
                    cur).findLevelById lvlId
                  = some (lvl.updateQuantity curF tq) := by
                rw [findLevelById_deleteOrder, findLevelById_eraseIndex]
                exact findLevelById_updLevel_self _ (fun l => lid_updateQuantity l curF tq) hfindT
              have hprice5 : (lvl.updateQuantity curF tq).price = lvlPrice := by
                rw [price_updateQuantity]
                exact hprice
              have horders5 : (lvl.updateQuantity curF tq).orders = rest := by
                rw [orders_updateQuantity_full _ _ _ hful, hcurFid, horders,
                  List.erase_cons_head]
              refine TradesOk.cons b b _ _ cur _ _ (sameRems_refl b) hInL hq hpos ?_ ?_
                (ih _ _ hnd5 him5 hfind5 hprice5 horders5)
              · rw [executeTrade_quantity]
                rw [remB_deleteOrder _ _ _
                  (heapNodup_eraseIndex _ _ (heapNodup_updLevel _ _ _ hndT))]
                rw [if_neg (show ¬ incId = cur from fun h => hci h.symm)]
                rw [remB_eraseIndex, remB_updLevel, remB_executeTrade]
                rw [if_neg (show ¬ incId = cur from fun h => hci h.symm), if_pos rfl]
              · rw [executeTrade_quantity]
                rw [remB_deleteOrder _ _ _
                  (heapNodup_eraseIndex _ _ (heapNodup_updLevel _ _ _ hndT))]
                rw [if_pos rfl, hCurRem]
                show @Eq Nat 0 (curO.quantity - curO.filled_quantity - tq)
                omega
            · rw [if_neg hful]
              have h7 : ¬ @LE.le Nat _ curO.quantity (curO.filled_quantity + tq) := by
                rw [hcurFval] at hful
                exact hful
              have hfilledInc : (inc.fill tq).isFullyFilled := by
                have h8 : @Eq Nat tq (min (inc.quantity - inc.filled_quantity)
                    (curO.quantity - curO.filled_quantity)) := h6
                have h9 : ¬ @LE.le Nat _ inc.quantity inc.filled_quantity := h5
                show @LE.le Nat _ inc.quantity (inc.filled_quantity + tq)
                omega
              have hlookup4 : ((executeTrade b incId incSide cur lvlPrice tq).1.updLevel lvlId
                  (fun x => x.updateQuantity curF tq)).lookupOrder incId
                  = some (inc.fill tq) := by
                rw [lookupOrder_updLevel, lookupOrder_executeTrade]
                rw [if_neg (show ¬ incId = cur from fun h => hci h.symm), if_pos rfl, hinc]
                rfl
              have hdone := incFilledOrDead_of_filled hlookup4 hfilledInc
              rw [matchLoop_of_filled rest hdone]
              refine TradesOk.cons b b _ _ cur _ [] (sameRems_refl b) hInL hq hpos ?_ ?_
                (TradesOk.nil _ _ (sameRems_refl _))
              · rw [executeTrade_quantity]
                rw [remB_updLevel, remB_executeTrade]
                rw [if_neg (show ¬ incId = cur from fun h => hci h.symm), if_pos rfl]
              · rw [executeTrade_quantity]
                rw [remB_updLevel, remB_executeTrade]
                rw [if_pos rfl, if_neg hci]

/-- The heap stays duplicate-free and id-consistent through the FIFO
matching loop. -/
theorem wf_matchLoop (incId : OrderId) (incSide : Side) (lvlId : Nat) (lvlPrice : Price) :
    ∀ (ids : List OrderId) (b : Book), HeapNodup b → HeapIdsMatch b →
      HeapNodup (matchLoop incId incSide lvlId lvlPrice b ids).1 ∧
      HeapIdsMatch (matchLoop incId incSide lvlId lvlPrice b ids).1 := by
  intro ids
  induction ids with
  | nil =>
    intro b hnd him
    exact ⟨hnd, him⟩
  | cons cur rest ih =>
    intro b hnd him
    by_cases hdead : incFilledOrDead b incId
    · rw [matchLoop_of_filled _ hdead]
      exact ⟨hnd, him⟩
    · simp only [matchLoop, if_neg hdead]
      cases hinc : b.lookupOrder incId with
      | none => exact ⟨hnd, him⟩
      | some inc =>
      cases hcur : b.lookupOrder cur with
      | none => exact ⟨hnd, him⟩
      | some curO =>
      dsimp only
      by_cases htq : min inc.remainingQuantity curO.remainingQuantity = 0
      · rw [if_pos htq]
        by_cases hrem : curO.remainingQuantity = 0
        · rw [if_pos hrem]
          exact ih _ (heapNodup_deleteOrder _ _ hnd) (heapIdsMatch_deleteOrder _ _ him)
        · rw [if_neg hrem]
          exact ⟨hnd, him⟩
      · rw [if_neg htq]
        set tq := min inc.remainingQuantity curO.remainingQuantity with htqd
        clear_value tq
        have hndT : HeapNodup (executeTrade b incId incSide cur lvlPrice tq).1 :=
          heapNodup_executeTrade _ _ _ _ _ _ hnd
        have himT : HeapIdsMatch (executeTrade b incId incSide cur lvlPrice tq).1 :=
          heapIdsMatch_executeTrade _ _ _ _ _ _ him
        cases hF : (executeTrade b incId incSide cur lvlPrice tq).1.lookupOrder cur with
        | none => exact ⟨hndT, himT⟩
        | some curF =>
          dsimp only
          by_cases hful : curF.isFullyFilled
          · rw [if_pos hful]
            exact ih _ (heapNodup_deleteOrder _ _ hndT) (heapIdsMatch_deleteOrder _ _ himT)
          · rw [if_neg hful]
            exact ih _ hndT himT

theorem heapNodup_cleanupLevelIf (b : Book) (lid : Nat) (s : Side) (h : HeapNodup b) :
    HeapNodup (cleanupLevelIf b lid s) := by
  unfold HeapNodup
  rw [orders_cleanupLevelIf]
  exact h

theorem heapIdsMatch_cleanupLevelIf (b : Book) (lid : Nat) (s : Side) (h : HeapIdsMatch b) :
    HeapIdsMatch (cleanupLevelIf b lid s) := by
  unfold HeapIdsMatch
  rw [orders_cleanupLevelIf]
  exact h

/-- `matchAgainstPriceLevel` emits a price-time-sound trade stream. -/
theorem matchAgainstPriceLevel_tradesOk (b : Book) (incId : OrderId) (incSide : Side)
    (lvlId : Nat) (hnd : HeapNodup b) (him : HeapIdsMatch b) :
    TradesOk incId b (matchAgainstPriceLevel b incId incSide lvlId).2
      (matchAgainstPriceLevel b incId incSide lvlId).1 := by
  unfold matchAgainstPriceLevel
  cases hfind : b.findLevelById lvlId with
  | none => exact TradesOk.nil _ _ (sameRems_refl b)
  | some lvl =>
    refine TradesOk.post
      (matchLoop_tradesOk incId incSide lvlId lvl.price lvl.orders b lvl hnd him hfind rfl rfl)
      ?_
    intro j
    exact remB_cleanupLevelIf _ _ _ j

theorem wf_matchAgainstPriceLevel (b : Book) (incId : OrderId) (incSide : Side)
    (lvlId : Nat) (hnd : HeapNodup b) (him : HeapIdsMatch b) :
    HeapNodup (matchAgainstPriceLevel b incId incSide lvlId).1 ∧
    HeapIdsMatch (matchAgainstPriceLevel b incId incSide lvlId).1 := by
  unfold matchAgainstPriceLevel
  cases hfind : b.findLevelById lvlId with
  | none => exact ⟨hnd, him⟩
  | some lvl =>
    have h := wf_matchLoop incId incSide lvlId lvl.price lvl.orders b hnd him
    exact ⟨heapNodup_cleanupLevelIf _ _ _ h.1, heapIdsMatch_cleanupLevelIf _ _ _ h.2⟩

/-- `executeMatching` emits a price-time-sound trade stream at any fuel. -/
theorem executeMatching_tradesOk (incId : OrderId) (incSide : Side) (incPrice : Price) :
    ∀ (fuel : Nat) (b : Book), HeapNodup b → HeapIdsMatch b →
      TradesOk incId b (executeMatching incId incSide incPrice fuel b).2
        (executeMatching incId incSide incPrice fuel b).1 := by
  intro fuel
  induction fuel with
  | zero =>
    intro b hnd him
    exact TradesOk.nil _ _ (sameRems_refl b)
  | succ fuel ih =>
    intro b hnd him
    unfold executeMatching
    dsimp only
    cases hlast : (if incSide = Side.Buy then b.asks else b.bids).getLast? with
    | none => exact TradesOk.nil _ _ (sameRems_refl b)
    | some lvl =>
      dsimp only
      split
      · exact TradesOk.nil _ _ (sameRems_refl b)
      · split
        · exact TradesOk.nil _ _ (sameRems_refl b)
        · have h1 := matchAgainstPriceLevel_tradesOk b incId incSide lvl.lid hnd him
          have hwf := wf_matchAgainstPriceLevel b incId incSide lvl.lid hnd him
          have h2 := ih (matchAgainstPriceLevel b incId incSide lvl.lid).1 hwf.1 hwf.2
          exact TradesOk.append h1 h2

/-- **C2.**  Every trade emitted while an incoming order is matched is
price-time sound: it is struck at the price of the level where its maker
was resting at the moment of the match (never at the aggressor's limit
unless the maker rested there), and its quantity is exactly
`min(taker remaining, maker remaining)` at that moment — hence at most
either remaining quantity — with the remaining quantities evolving by
exactly the fills between consecutive trades. -/
theorem matching_trades_price_qty_sound (b : Book) (o : Order)
    (hnd : HeapNodup b) (him : HeapIdsMatch b) :
    TradesOk o.id b (processMatching b o).2 (processMatching b o).1 := by
  unfold processMatching
  dsimp only
  cases hlast : (if o.side = Side.Buy then b.asks else b.bids).getLast? with
  | none => exact TradesOk.nil _ _ (sameRems_refl b)
  | some best =>
    dsimp only
    split
    · exact executeMatching_tradesOk o.id o.side o.price _ b hnd him
    · exact TradesOk.nil _ _ (sameRems_refl b)

theorem makerOf_executeTrade (b : Book) (i : OrderId) (s : Side) (m : OrderId)
    (p : Price) (q : Quantity) : makerOf s (executeTrade b i s m p q).2 = m := by
  cases s <;> rfl

/-- The matching loop never touches the remaining quantity of an order
outside the queue (other than the incoming order). -/
theorem remB_matchLoop_untouched (incId : OrderId) (incSide : Side) (lvlId : Nat)
    (lvlPrice : Price) :
    ∀ (ids : List OrderId) (b : Book) (j : OrderId), HeapNodup b →
      ¬ j = incId → j ∉ ids →
      remB (matchLoop incId incSide lvlId lvlPrice b ids).1 j = remB b j := by
  intro ids
  induction ids with
  | nil =>
    intro b j _ _ _
    rfl
  | cons cur rest ih =>
    intro b j hnd hji hjids
    have hjcur : ¬ j = cur := fun h => hjids (h ▸ List.mem_cons_self _ _)
    have hjrest : j ∉ rest := fun h => hjids (List.mem_cons_of_mem _ h)
    by_cases hdead : incFilledOrDead b incId
    · rw [matchLoop_of_filled _ hdead]
    · simp only [matchLoop, if_neg hdead]
      cases hinc : b.lookupOrder incId with
      | none => rfl
      | some inc =>
      cases hcur : b.lookupOrder cur with
      | none => rfl
      | some curO =>
      dsimp only
      by_cases htq : min inc.remainingQuantity curO.remainingQuantity = 0
      · rw [if_pos htq]
        by_cases hrem : curO.remainingQuantity = 0
        · rw [if_pos hrem]
          refine (ih _ j (heapNodup_deleteOrder _ _
            (heapNodup_eraseIndex _ _ (heapNodup_updLevel _ _ _ hnd))) hji hjrest).trans ?_
          rw [remB_deleteOrder _ _ j
            (heapNodup_eraseIndex _ _ (heapNodup_updLevel _ _ _ hnd)), if_neg hjcur]
          rfl
        · rw [if_neg hrem]
      · rw [if_neg htq]
        set tq := min inc.remainingQuantity curO.remainingQuantity with htqd
        clear_value tq
        have hndT : HeapNodup (executeTrade b incId incSide cur lvlPrice tq).1 :=
          heapNodup_executeTrade _ _ _ _ _ _ hnd
        have hrB : remB (executeTrade b incId incSide cur lvlPrice tq).1 j = remB b j := by
          rw [remB_executeTrade, if_neg hjcur, if_neg hji]
        cases hF : (executeTrade b incId incSide cur lvlPrice tq).1.lookupOrder cur with
        | none => exact hrB
        | some curF =>
          dsimp only
          by_cases hful : curF.isFullyFilled
          · rw [if_pos hful]
            refine (ih _ j (heapNodup_deleteOrder _ _
              (heapNodup_eraseIndex _ _ (heapNodup_updLevel _ _ _ hndT))) hji hjrest).trans ?_
            rw [remB_deleteOrder _ _ j
              (heapNodup_eraseIndex _ _ (heapNodup_updLevel _ _ _ hndT)), if_neg hjcur]
            exact hrB
          · rw [if_neg hful]
            refine (ih _ j (heapNodup_updLevel _ _ _ hndT) hji hjrest).trans ?_
            exact hrB

/-- Core induction for C3: the FIFO loop consumes makers strictly from
the head of the queue — the emitted maker stream is a prefix of the
live-remainder queue in arrival order, and every maker except possibly
the last is fully filled when the loop ends. -/
theorem matchLoop_fifo (incId : OrderId) (incSide : Side) (lvlId : Nat)
    (lvlPrice : Price) :
    ∀ (ids : List OrderId) (b : Book), HeapNodup b → ids.Nodup → incId ∉ ids →
      (∃ n, ((matchLoop incId incSide lvlId lvlPrice b ids).2.map (makerOf incSide))
          = (ids.filter (fun i => decide (0 < remB b i))).take n) ∧
      ∀ i ∈ ((matchLoop incId incSide lvlId lvlPrice b ids).2.map (makerOf incSide)).dropLast,
        remB (matchLoop incId incSide lvlId lvlPrice b ids).1 i = 0 := by
  intro ids
  induction ids with
  | nil =>
    intro b _ _ _
    exact ⟨⟨0, rfl⟩, by intro i hi; simp [matchLoop] at hi⟩
  | cons cur rest ih =>
    intro b hnd hnodup hinc
    have hcr : cur ∉ rest := (List.nodup_cons.mp hnodup).1
    have hnodup' : rest.Nodup := (List.nodup_cons.mp hnodup).2
    have hci : ¬ cur = incId := fun h => hinc (h ▸ List.mem_cons_self _ _)
    have hinc' : incId ∉ rest := fun h => hinc (List.mem_cons_of_mem _ h)
    by_cases hdead : incFilledOrDead b incId
    · rw [matchLoop_of_filled _ hdead]
      exact ⟨⟨0, rfl⟩, by intro i hi; simp at hi⟩
    · simp only [matchLoop, if_neg hdead]
      cases hinco : b.lookupOrder incId with
      | none => exact absurd (incFilledOrDead_of_none hinco) hdead
      | some inc =>
      cases hcur : b.lookupOrder cur with
      | none => exact ⟨⟨0, rfl⟩, by intro i hi; simp at hi⟩
      | some curO =>
      dsimp only
      by_cases htq : min inc.remainingQuantity curO.remainingQuantity = 0
      · rw [if_pos htq]
        by_cases hrem : curO.remainingQuantity = 0
        · rw [if_pos hrem]
          have hnd3 : HeapNodup ((({ b.updLevel lvlId (PriceLevel.removeOrder · curO) with
              order_index := aerase (b.updLevel lvlId
                (PriceLevel.removeOrder · curO)).order_index cur } : Book)).deleteOrder cur) :=
            heapNodup_deleteOrder _ _
              (heapNodup_eraseIndex _ _ (heapNodup_updLevel _ _ _ hnd))
          obtain ⟨⟨n, hn⟩, hdropih⟩ := ih _ hnd3 hnodup' hinc'
          have hfiltereq : rest.filter (fun i => decide (0 <
              remB ((({ b.updLevel lvlId (PriceLevel.removeOrder · curO) with
                order_index := aerase (b.updLevel lvlId
                  (PriceLevel.removeOrder · curO)).order_index cur } : Book)).deleteOrder cur)
                i))
              = rest.filter (fun i => decide (0 < remB b i)) := by
            refine List.filter_congr ?_
            intro i hi
            have hicur : ¬ i = cur := fun h => hcr (h ▸ hi)
            have hr : remB ((({ b.updLevel lvlId (PriceLevel.removeOrder · curO) with
                order_index := aerase (b.updLevel lvlId
                  (PriceLevel.removeOrder · curO)).order_index cur } : Book)).deleteOrder cur)
                  i = remB b i := by
              rw [remB_deleteOrder _ _ i
                (heapNodup_eraseIndex _ _ (heapNodup_updLevel _ _ _ hnd)), if_neg hicur]
              rfl
            show decide (0 < remB ((({ b.updLevel lvlId (PriceLevel.removeOrder · curO) with
                order_index := aerase (b.updLevel lvlId
                  (PriceLevel.removeOrder · curO)).order_index cur } : Book)).deleteOrder cur)
                  i) = decide (0 < remB b i)
            rw [hr]
          have hnl : ¬ ((fun i => decide (0 < remB b i)) cur = true) := by
            show ¬ (decide (0 < remB b cur) = true)
            rw [remB_eq_of_lookup hcur, hrem]
            decide
          have hfc0 : (cur :: rest).filter (fun i => decide (0 < remB b i))
              = rest.filter (fun i => decide (0 < remB b i)) := by
            rw [List.filter_cons, if_neg hnl]
          refine ⟨⟨n, ?_⟩, ?_⟩
          · rw [hfc0, ← hfiltereq]
            exact hn
          · exact hdropih
        · rw [if_neg hrem]
          exact ⟨⟨0, rfl⟩, by intro i hi; simp at hi⟩
      · rw [if_neg htq]
        set tq := min inc.remainingQuantity curO.remainingQuantity with htqd
        clear_value tq
        have hcur0 : @LT.lt Nat _ 0 curO.remainingQuantity := by
          have h1 : ¬ @Eq Nat tq 0 := htq
          have h2 : @Eq Nat tq (min (inc.quantity - inc.filled_quantity)
              (curO.quantity - curO.filled_quantity)) := htqd
          show @LT.lt Nat _ 0 (curO.quantity - curO.filled_quantity)
          omega
        have hlive : (fun i => decide (0 < remB b i)) cur = true := by
          show decide (0 < remB b cur) = true
          rw [remB_eq_of_lookup hcur]
          exact decide_eq_true hcur0
        have hfc : (cur :: rest).filter (fun i => decide (0 < remB b i))
            = cur :: rest.filter (fun i => decide (0 < remB b i)) := by
          rw [List.filter_cons, if_pos hlive]
        have hmo : makerOf incSide (executeTrade b incId incSide cur lvlPrice tq).2 = cur :=
          makerOf_executeTrade b incId incSide cur lvlPrice tq
        have hndT : HeapNodup (executeTrade b incId incSide cur lvlPrice tq).1 :=
          heapNodup_executeTrade _ _ _ _ _ _ hnd
        cases hF : (executeTrade b incId incSide cur lvlPrice tq).1.lookupOrder cur with
        | none =>
          exfalso
          rw [lookupOrder_executeTrade, if_pos rfl, if_neg hci, hcur] at hF
          simp at hF
        | some curF =>
          dsimp only
          have hcurFval : curF = curO.fill tq := by
            rw [lookupOrder_executeTrade, if_pos rfl, if_neg hci, hcur] at hF
            simp only [Option.map] at hF
            exact (Option.some.inj hF).symm
          by_cases hful : curF.isFullyFilled
          · rw [if_pos hful]
            have hnd5 : HeapNodup ((({ (executeTrade b incId incSide cur lvlPrice
                tq).1.updLevel lvlId (fun x => x.updateQuantity curF tq) with
                order_index := aerase ((executeTrade b incId incSide cur lvlPrice
                  tq).1.updLevel lvlId
                  (fun x => x.updateQuantity curF tq)).order_index cur } : Book)).deleteOrder
                  cur) :=
              heapNodup_deleteOrder _ _
                (heapNodup_eraseIndex _ _ (heapNodup_updLevel _ _ _ hndT))
            obtain ⟨⟨n, hn⟩, hdropih⟩ := ih _ hnd5 hnodup' hinc'
            have hfiltereq : rest.filter (fun i => decide (0 <
                remB ((({ (executeTrade b incId incSide cur lvlPrice
                  tq).1.updLevel lvlId (fun x => x.updateQuantity curF tq) with
                  order_index := aerase ((executeTrade b incId incSide cur lvlPrice
                    tq).1.updLevel lvlId
                    (fun x => x.updateQuantity curF tq)).order_index cur } : Book)).deleteOrder
                    cur) i))
                = rest.filter (fun i => decide (0 < remB b i)) := by
              refine List.filter_congr ?_
              intro i hi
              have hicur : ¬ i = cur := fun h => hcr (h ▸ hi)
              have hiinc : ¬ i = incId := fun h => hinc' (h ▸ hi)
              have hr : remB ((({ (executeTrade b incId incSide cur lvlPrice
                  tq).1.updLevel lvlId (fun x => x.updateQuantity curF tq) with
                  order_index := aerase ((executeTrade b incId incSide cur lvlPrice
                    tq).1.updLevel lvlId
                    (fun x => x.updateQuantity curF tq)).order_index cur } : Book)).deleteOrder
                    cur) i = remB b i := by
                rw [remB_deleteOrder _ _ i
                  (heapNodup_eraseIndex _ _ (heapNodup_updLevel _ _ _ hndT)), if_neg hicur,
                  remB_eraseIndex, remB_updLevel, remB_executeTrade, if_neg hicur,
                  if_neg hiinc]
              show decide (0 < remB ((({ (executeTrade b incId incSide cur lvlPrice
                  tq).1.updLevel lvlId (fun x => x.updateQuantity curF tq) with
                  order_index := aerase ((executeTrade b incId incSide cur lvlPrice
                    tq).1.updLevel lvlId
                    (fun x => x.updateQuantity curF tq)).order_index cur } : Book)).deleteOrder
                    cur) i) = decide (0 < remB b i)
              rw [hr]
            refine ⟨⟨n + 1, ?_⟩, ?_⟩
            · rw [hfc, List.take_succ_cons, ← hfiltereq, ← hn]
              exact congrArg (· :: (matchLoop incId incSide lvlId lvlPrice
                ((({ (executeTrade b incId incSide cur lvlPrice
                  tq).1.updLevel lvlId (fun x => x.updateQuantity curF tq) with
                  order_index := aerase ((executeTrade b incId incSide cur lvlPrice
                    tq).1.updLevel lvlId
                    (fun x => x.updateQuantity curF tq)).order_index cur } : Book)).deleteOrder
                    cur) rest).2.map (makerOf incSide)) hmo
            · intro i hi
              have hi' : i ∈ (((executeTrade b incId incSide cur lvlPrice tq).2
                  :: (matchLoop incId incSide lvlId lvlPrice
                    ((({ (executeTrade b incId incSide cur lvlPrice
                      tq).1.updLevel lvlId (fun x => x.updateQuantity curF tq) with
                      order_index := aerase ((executeTrade b incId incSide cur lvlPrice
                        tq).1.updLevel lvlId
                        (fun x =>
                          x.updateQuantity curF tq)).order_index cur } : Book)).deleteOrder
                        cur) rest).2).map (makerOf incSide)).dropLast := hi
              rw [List.map_cons, hmo] at hi'
              have hcl : remB (matchLoop incId incSide lvlId lvlPrice
                  ((({ (executeTrade b incId incSide cur lvlPrice
                    tq).1.updLevel lvlId (fun x => x.updateQuantity curF tq) with
                    order_index := aerase ((executeTrade b incId incSide cur lvlPrice
                      tq).1.updLevel lvlId
                      (fun x => x.updateQuantity curF tq)).order_index cur } : Book)).deleteOrder
                      cur) rest).1 cur = 0 := by
                refine (remB_matchLoop_untouched incId incSide lvlId lvlPrice rest _ cur
                  hnd5 hci hcr).trans ?_
                rw [remB_deleteOrder _ _ cur
                  (heapNodup_eraseIndex _ _ (heapNodup_updLevel _ _ _ hndT)), if_pos rfl]
              cases hms : (matchLoop incId incSide lvlId lvlPrice
                  ((({ (executeTrade b incId incSide cur lvlPrice
                    tq).1.updLevel lvlId (fun x => x.updateQuantity curF tq) with
                    order_index := aerase ((executeTrade b incId incSide cur lvlPrice
                      tq).1.updLevel lvlId
                      (fun x => x.updateQuantity curF tq)).order_index cur } : Book)).deleteOrder
                      cur) rest).2.map (makerOf incSide) with
              | nil =>
                rw [hms] at hi'
                simp at hi'
              | cons m2 ms2 =>
                rw [hms] at hi'
                have hi2 : i ∈ cur :: (m2 :: ms2).dropLast := hi'
                rcases List.mem_cons.mp hi2 with h | hi3
                · exact h ▸ hcl
                · refine hdropih i ?_
                  rw [hms]
                  exact hi3
          · rw [if_neg hful]
            have hIncNF : ¬ inc.isFullyFilled := not_filled_of_not_dead hdead hinco
            have hlookup4 : ((executeTrade b incId incSide cur lvlPrice tq).1.updLevel lvlId
                (fun x => x.updateQuantity curF tq)).lookupOrder incId
                = some (inc.fill tq) := by
              rw [lookupOrder_updLevel, lookupOrder_executeTrade]
              rw [if_neg (show ¬ incId = cur from fun h => hci h.symm), if_pos rfl, hinco]
              rfl
            have h7 : ¬ @LE.le Nat _ curO.quantity (curO.filled_quantity + tq) := by
              rw [hcurFval] at hful
              exact hful
            have hfilledInc : (inc.fill tq).isFullyFilled := by
              have h8 : @Eq Nat tq (min (inc.quantity - inc.filled_quantity)
                  (curO.quantity - curO.filled_quantity)) := htqd
              have h9 : ¬ @LE.le Nat _ inc.quantity inc.filled_quantity := hIncNF
              show @LE.le Nat _ inc.quantity (inc.filled_quantity + tq)
              omega
            have hdone := incFilledOrDead_of_filled hlookup4 hfilledInc
            rw [matchLoop_of_filled rest hdone]
            refine ⟨⟨1, ?_⟩, ?_⟩
            · rw [hfc, List.take_succ_cons, List.take_zero]
              exact congrArg (fun z => [z]) hmo
            · intro i hi
              have hi' : i ∈ ([makerOf incSide
                  (executeTrade b incId incSide cur lvlPrice tq).2]).dropLast := hi
              simp at hi'

theorem aupsert_of_none {α β : Type} [DecidableEq α] (l : List (α × β)) (k : α) (v : β)
    (h : alookup l k = none) : aupsert l k v = l ++ [(k, v)] := by
  unfold aupsert
  rw [h]
  rfl

theorem aerase_append_right {α β : Type} [DecidableEq α] (l : List (α × β)) (k : α) (v : β)
    (h : alookup l k = none) : aerase (l ++ [(k, v)]) k = l := by
  induction l with
  | nil => simp [aerase]
  | cons p rest ih =>
    obtain ⟨k1, v1⟩ := p
    simp only [alookup] at h
    by_cases hk : k1 = k
    · rw [if_pos hk] at h
      cases h
    · rw [if_neg hk] at h
      show aerase ((k1, v1) :: (rest ++ [(k, v)])) k = (k1, v1) :: rest
      unfold aerase
      rw [if_neg hk, ih h]

/-- Adding then removing the same (previously absent) order leaves a
price level exactly as it was. -/
theorem removeOrder_addOrder (lvl : PriceLevel) (o : Order) (h : o.id ∉ lvl.orders) :
    PriceLevel.removeOrder (PriceLevel.addOrder lvl o) o = lvl := by
  unfold PriceLevel.addOrder PriceLevel.removeOrder
  dsimp only
  rw [List.erase_append_right _ h, List.erase_cons_head, List.append_nil,
    Nat.add_sub_cancel, Nat.add_sub_cancel]

/-- `updLevel`'s per-vector map is the identity when the address is
absent from the vector. -/
theorem map_upd_id (v : List PriceLevel) (lid : Nat) (f : PriceLevel → PriceLevel)
    (h : ∀ l ∈ v, ¬ l.lid = lid) :
    v.map (fun l => if l.lid = lid then f l else l) = v := by
  induction v with
  | nil => rfl
  | cons a rest ih =>
    simp only [List.map_cons]
    rw [if_neg (h a (List.mem_cons_self _ _)),
      ih (fun l hl => h l (List.mem_cons_of_mem _ hl))]

theorem map_upd_middle (T D : List PriceLevel) (y : PriceLevel) (lid : Nat)
    (f : PriceLevel → PriceLevel) (hT : ∀ l ∈ T, ¬ l.lid = lid)
    (hD : ∀ l ∈ D, ¬ l.lid = lid) (hy : y.lid = lid) :
    (T ++ y :: D).map (fun l => if l.lid = lid then f l else l) = T ++ f y :: D := by
  rw [List.map_append, List.map_cons, map_upd_id T lid f hT, map_upd_id D lid f hD,
    if_pos hy]

/-- Two successive `updLevel` maps cancel when the second undoes the
first on every level at the address. -/
theorem map_upd_upd (v : List PriceLevel) (lid : Nat) (f g : PriceLevel → PriceLevel)
    (hf : ∀ l, (f l).lid = l.lid)
    (h : ∀ l ∈ v, l.lid = lid → g (f l) = l) :
    (v.map (fun l => if l.lid = lid then f l else l)).map
      (fun l => if l.lid = lid then g l else l) = v := by
  induction v with
  | nil => rfl
  | cons a rest ih =>
    simp only [List.map_cons]
    by_cases ha : a.lid = lid
    · rw [if_pos ha, if_pos ((hf a).trans ha), h a (List.mem_cons_self _ _) ha,
        ih (fun l hl hll => h l (List.mem_cons_of_mem _ hl) hll)]
    · rw [if_neg ha, if_neg ha, ih (fun l hl hll => h l (List.mem_cons_of_mem _ hl) hll)]

theorem find_middleahead (T D : List PriceLevel) (y : PriceLevel) (lid : Nat)
    (hT : ∀ l ∈ T, ¬ l.lid = lid) (hy : y.lid = lid) :
    (T ++ y :: D).find? (fun l => l.lid == lid) = some y := by
  induction T with
  | nil =>
    have hb : (y.lid == lid) = true := beq_iff_eq.mpr hy
    simp [List.find?_cons, hb]
  | cons a T ih =>
    have ha : (a.lid == lid) = false :=
      beq_eq_false_iff_ne.mpr (hT a (List.mem_cons_self _ _))
    simp only [List.cons_append, List.find?_cons, ha]
    exact ih (fun l hl => hT l (List.mem_cons_of_mem _ hl))

theorem eraseP_middle (T D : List PriceLevel) (y : PriceLevel) (lid : Nat)
    (hT : ∀ l ∈ T, ¬ l.lid = lid) (hy : y.lid = lid) :
    (T ++ y :: D).eraseP (fun l => l.lid == lid) = T ++ D := by
  induction T with
  | nil =>
    have hb : (y.lid == lid) = true := beq_iff_eq.mpr hy
    simp [List.eraseP_cons, hb]
  | cons a T ih =>
    have ha : (a.lid == lid) = false :=
      beq_eq_false_iff_ne.mpr (hT a (List.mem_cons_self _ _))
    simp only [List.cons_append, List.eraseP_cons, ha, cond_false]
    rw [ih (fun l hl => hT l (List.mem_cons_of_mem _ hl))]

/-- Level addresses are unique across the two ladders. -/
theorem lidsNodup_disjoint {b : Book} (hnd : LidsNodup b) :
    ∀ lb ∈ b.bids, ∀ la ∈ b.asks, ¬ la.lid = lb.lid := by
  intro lb hb la ha h
  unfold LidsNodup at hnd
  rw [List.map_append] at hnd
  have hdis := (List.nodup_append.mp hnd).2.2
  exact hdis (List.mem_map_of_mem PriceLevel.lid hb)
    (h ▸ List.mem_map_of_mem PriceLevel.lid ha)

/-- `processMatching` is a no-op when the incoming order does not cross
the opposite best. -/
theorem processMatching_of_noCrossTop (b : Book) (o : Order) (h : noCrossTop b o) :
    processMatching b o = (b, []) := by
  unfold noCrossTop at h
  unfold processMatching
  dsimp only
  cases hlast : (if o.side = Side.Buy then b.asks else b.bids).getLast? with
  | none => rfl
  | some best =>
    rw [hlast] at h
    dsimp only at h
    dsimp only
    exact if_neg (fun hc => h hc.1)

/-- **C3.**  Price levels are strictly FIFO: an arriving order is
appended at the tail of its level's queue, and matching consumes the
queue strictly from the head — the makers of the emitted trades are, in
order, a prefix of the level's (live-remainder) queue in arrival order,
and every consumed maker except possibly the last ends the loop fully
filled, so an aggressor only touches a later-queued order after the
earlier one is exhausted, regardless of their sizes. -/
theorem level_queue_fifo (lvl : PriceLevel) (o : Order) (incId : OrderId)
    (incSide : Side) (lvlId : Nat) (lvlPrice : Price) (ids : List OrderId) (b : Book)
    (hnd : HeapNodup b) (hnodup : ids.Nodup) (hinc : incId ∉ ids) :
    (PriceLevel.addOrder lvl o).orders = lvl.orders ++ [o.id] ∧
    (∃ n, ((matchLoop incId incSide lvlId lvlPrice b ids).2.map (makerOf incSide))
        = (ids.filter (fun i => decide (0 < remB b i))).take n) ∧
    (∀ i ∈ ((matchLoop incId incSide lvlId lvlPrice b ids).2.map (makerOf incSide)).dropLast,
      remB (matchLoop incId incSide lvlId lvlPrice b ids).1 i = 0) :=
  ⟨rfl, (matchLoop_fifo incId incSide lvlId lvlPrice ids b hnd hnodup hinc).1,
    (matchLoop_fifo incId incSide lvlId lvlPrice ids b hnd hnodup hinc).2⟩

/-- Closed witness for C3 at a concrete level, order, book and queue. -/
theorem level_queue_fifo_witness :
    HeapNodup sampleBook ∧ ([1] : List OrderId).Nodup ∧ (2 : OrderId) ∉ ([1] : List OrderId) ∧
    ((PriceLevel.addOrder ⟨0, 100, 10, 1, [1]⟩ sampleTaker).orders
        = [1] ++ [sampleTaker.id] ∧
     (∃ n, ((matchLoop 2 Side.Buy 0 100 sampleBook [1]).2.map (makerOf Side.Buy))
         = (([1] : List OrderId).filter (fun i => decide (0 < remB sampleBook i))).take n) ∧
     (∀ i ∈ ((matchLoop 2 Side.Buy 0 100 sampleBook [1]).2.map (makerOf Side.Buy)).dropLast,
       remB (matchLoop 2 Side.Buy 0 100 sampleBook [1]).1 i = 0)) :=
  ⟨by decide, by decide, by decide,
    level_queue_fifo ⟨0, 100, 10, 1, [1]⟩ sampleTaker 2 Side.Buy 0 100 [1] sampleBook
      (by decide) (by decide) (by decide)⟩

/-- Closed witness for C2: the sample book satisfies both hypotheses and
the sample taker's matching run is price-time sound. -/
theorem matching_trades_price_qty_sound_witness :
    HeapNodup sampleBook ∧ HeapIdsMatch sampleBook ∧
    TradesOk sampleTaker.id sampleBook (processMatching sampleBook sampleTaker).2
      (processMatching sampleBook sampleTaker).1 :=
  ⟨by decide, by decide,
    matching_trades_price_qty_sound sampleBook sampleTaker (by decide) (by decide)⟩
theorem addOrder_tail_eval (B : Book) (o : Order) (lid : Nat)
    (hm : processMatching B o = (B, []))
    (hlk : B.lookupOrder o.id = some o)
    (hfill : o.filled_quantity = 0) :
    (let bt := processMatching B o
     let b2 := bt.1
     (match b2.lookupOrder o.id with
      | none => (none : Option (Book × List Trade))
      | some o2 =>
        if 0 < o2.filled_quantity then
          let b3 := b2.updLevel lid (PriceLevel.updateQuantity · o2 o2.filled_quantity)
          if o2.isFullyFilled then
            let b4 :=
              match b3.findLevelById lid with
              | some lvl =>
                if lvl.isEmpty then
                  if alookup b3.price_index o2.price = some lid then
                    removePriceLevel b3 lid o2.side
                  else b3
                else b3
              | none => b3
            let b5 := { b4 with order_index := aerase b4.order_index o.id }
            let b6 := b5.deleteOrder o.id
            some (b6, bt.2)
          else some (b3, bt.2)
        else some (b2, bt.2))) = some (B, []) := by
  dsimp only
  rw [hm]
  dsimp only
  rw [hlk]
  dsimp only
  rw [if_neg (show ¬ 0 < o.filled_quantity by rw [hfill]; exact Nat.lt_irrefl 0)]

theorem c8_join (b : Book) (o : Order) (lid : Nat) (lvl : PriceLevel)
    (hpi : alookup b.price_index o.price = some lid)
    (hfind : b.findLevelById lid = some lvl)
    (hprice : lvl.price = o.price)
    (hmem : lvl ∈ (if o.side = Side.Buy then b.bids else b.asks))
    (hne : ¬ lvl.isEmpty)
    (hnotin : o.id ∉ lvl.orders)
    (hfreshIdx : alookup b.order_index o.id = none)
    (hfreshHeap : alookup b.orders o.id = none)
    (hfill : o.filled_quantity = 0)
    (hnc : noCrossTop b o)
    (hnd : LidsNodup b) :
    processAddOrder b o = some
      ({ b with
          orders := b.orders ++ [(o.id, o)],
          bids := b.bids.map (fun l => if l.lid = lid then PriceLevel.addOrder l o else l),
          asks := b.asks.map (fun l => if l.lid = lid then PriceLevel.addOrder l o else l),
          order_index := b.order_index ++ [(o.id, (⟨lid, o.side⟩ : OrderLocation))] }, [])
    ∧ processCancelOrder
        ({ b with
          orders := b.orders ++ [(o.id, o)],
          bids := b.bids.map (fun l => if l.lid = lid then PriceLevel.addOrder l o else l),
          asks := b.asks.map (fun l => if l.lid = lid then PriceLevel.addOrder l o else l),
          order_index := b.order_index ++ [(o.id, (⟨lid, o.side⟩ : OrderLocation))] }) o.id
      = (b, false) := by
  set B1 : Book := { b with
    orders := b.orders ++ [(o.id, o)],
    bids := b.bids.map (fun l => if l.lid = lid then PriceLevel.addOrder l o else l),
    asks := b.asks.map (fun l => if l.lid = lid then PriceLevel.addOrder l o else l),
    order_index := b.order_index ++ [(o.id, (⟨lid, o.side⟩ : OrderLocation))] } with hB1
  have hlvlid : lvl.lid = lid := lid_of_findLevelById hfind
  have hndall := hnd
  unfold LidsNodup at hndall
  rw [List.map_append] at hndall
  obtain ⟨hndb, hnda, hdisj⟩ := List.nodup_append.mp hndall
  have hro : ratAbs (lvl.price - o.price) < MinPriceIncrement := by
    rw [hprice, sub_self]
    show ratAbs 0 < MinPriceIncrement
    norm_num [ratAbs, MinPriceIncrement]
  have hfoc : findOrCreatePriceLevel b o.price o.side = (b, lid) := by
    unfold findOrCreatePriceLevel
    rw [hpi]
    dsimp only
    rw [hfind]
    dsimp only
    rw [if_pos hro]
  have hncB : noCrossTop B1 o := by
    unfold noCrossTop at hnc ⊢
    by_cases hs : o.side = Side.Buy
    · rw [if_pos hs] at hnc ⊢
      rw [hB1]
      dsimp only
      rw [map_upd_id _ _ _ (fun l hl hll => hdisj
        (hlvlid ▸ List.mem_map_of_mem PriceLevel.lid
          (show lvl ∈ b.bids by rw [if_pos hs] at hmem; exact hmem))
        (hll ▸ List.mem_map_of_mem PriceLevel.lid hl))]
      exact hnc
    · rw [if_neg hs] at hnc ⊢
      rw [hB1]
      dsimp only
      rw [map_upd_id _ _ _ (fun l hl hll => hdisj
        (hll ▸ List.mem_map_of_mem PriceLevel.lid hl)
        (hlvlid ▸ List.mem_map_of_mem PriceLevel.lid
          (show lvl ∈ b.asks by rw [if_neg hs] at hmem; exact hmem)))]
      exact hnc
  have hlkB : B1.lookupOrder o.id = some o := by
    show alookup (b.orders ++ [(o.id, o)]) o.id = some o
    exact alookup_append_right _ _ _ hfreshHeap
  constructor
  · unfold processAddOrder
    rw [hfreshIdx]
    rw [if_neg (by decide : ¬ ((none : Option OrderLocation).isSome = true))]
    rw [hfoc]
    dsimp only [Book.updLevel]
    rw [aupsert_of_none _ _ _ hfreshIdx]
    exact addOrder_tail_eval B1 o lid (processMatching_of_noCrossTop B1 o hncB) hlkB hfill
  · have hbidrt : ∀ l ∈ b.bids, l.lid = lid →
        PriceLevel.removeOrder (PriceLevel.addOrder l o) o = l := by
      intro l hl hll
      by_cases hs : o.side = Side.Buy
      · rw [if_pos hs] at hmem
        have hleq : l = lvl := List.inj_on_of_nodup_map hndb hl hmem (hll.trans hlvlid.symm)
        rw [hleq]
        exact removeOrder_addOrder lvl o hnotin
      · rw [if_neg hs] at hmem
        exact ((hdisj (hll ▸ List.mem_map_of_mem PriceLevel.lid hl)
          (hlvlid ▸ List.mem_map_of_mem PriceLevel.lid hmem))).elim
    have haskrt : ∀ l ∈ b.asks, l.lid = lid →
        PriceLevel.removeOrder (PriceLevel.addOrder l o) o = l := by
      intro l hl hll
      by_cases hs : o.side = Side.Buy
      · rw [if_pos hs] at hmem
        exact ((hdisj (hlvlid ▸ List.mem_map_of_mem PriceLevel.lid hmem)
          (hll ▸ List.mem_map_of_mem PriceLevel.lid hl))).elim
      · rw [if_neg hs] at hmem
        have hleq : l = lvl := List.inj_on_of_nodup_map hnda hl hmem (hll.trans hlvlid.symm)
        rw [hleq]
        exact removeOrder_addOrder lvl o hnotin
    have hc1 : B1.updLevel lid (PriceLevel.removeOrder · o)
        = { b with
            orders := b.orders ++ [(o.id, o)],
            order_index := b.order_index ++ [(o.id, (⟨lid, o.side⟩ : OrderLocation))] } := by
      rw [hB1]
      unfold Book.updLevel
      dsimp only
      rw [map_upd_upd b.bids lid (fun l => PriceLevel.addOrder l o)
          (fun l => PriceLevel.removeOrder l o) (fun l => rfl) hbidrt,
        map_upd_upd b.asks lid (fun l => PriceLevel.addOrder l o)
          (fun l => PriceLevel.removeOrder l o) (fun l => rfl) haskrt]
    unfold processCancelOrder
    rw [show alookup B1.order_index o.id = some (⟨lid, o.side⟩ : OrderLocation) from
      alookup_append_right _ _ _ hfreshIdx]
    dsimp only
    rw [hlkB]
    dsimp only
    rw [hc1]
    unfold cleanupLevelIf
    rw [show ({ b with
        orders := b.orders ++ [(o.id, o)],
        order_index := b.order_index ++ [(o.id, (⟨lid, o.side⟩ : OrderLocation))] } :
          Book).findLevelById lid = some lvl from hfind]
    dsimp only
    rw [if_neg hne]
    unfold Book.deleteOrder
    dsimp only
    rw [aerase_append_right _ _ _ hfreshHeap, aerase_append_right _ _ _ hfreshIdx]

theorem c8_create_buy (b : Book) (o : Order)
    (hside : o.side = Side.Buy)
    (hpi : alookup b.price_index o.price = none)
    (hfreshIdx : alookup b.order_index o.id = none)
    (hfreshHeap : alookup b.orders o.id = none)
    (hfill : o.filled_quantity = 0)
    (hnc : noCrossTop b o)
    (hfresh : lidsFresh b) :
    processAddOrder b o = some
      ({ b with
          orders := b.orders ++ [(o.id, o)],
          bids := (b.bids.takeWhile (fun l : PriceLevel => decide (l.price < o.price)) ++
            (⟨b.next_lid, o.price, 0, 0, []⟩ : PriceLevel) ::
            b.bids.dropWhile (fun l : PriceLevel => decide (l.price < o.price))).map
              (fun l => if l.lid = b.next_lid then PriceLevel.addOrder l o else l),
          asks := b.asks.map
            (fun l => if l.lid = b.next_lid then PriceLevel.addOrder l o else l),
          price_index := b.price_index ++ [(o.price, b.next_lid)],
          order_index := b.order_index ++ [(o.id, (⟨b.next_lid, o.side⟩ : OrderLocation))],
          next_lid := b.next_lid + 1 }, [])
    ∧ processCancelOrder
        ({ b with
          orders := b.orders ++ [(o.id, o)],
          bids := (b.bids.takeWhile (fun l : PriceLevel => decide (l.price < o.price)) ++
            (⟨b.next_lid, o.price, 0, 0, []⟩ : PriceLevel) ::
            b.bids.dropWhile (fun l : PriceLevel => decide (l.price < o.price))).map
              (fun l => if l.lid = b.next_lid then PriceLevel.addOrder l o else l),
          asks := b.asks.map
            (fun l => if l.lid = b.next_lid then PriceLevel.addOrder l o else l),
          price_index := b.price_index ++ [(o.price, b.next_lid)],
          order_index := b.order_index ++ [(o.id, (⟨b.next_lid, o.side⟩ : OrderLocation))],
          next_lid := b.next_lid + 1 }) o.id
      = ({ b with next_lid := b.next_lid + 1 }, false) := by
  set B1 : Book := { b with
    orders := b.orders ++ [(o.id, o)],
    bids := (b.bids.takeWhile (fun l : PriceLevel => decide (l.price < o.price)) ++
      (⟨b.next_lid, o.price, 0, 0, []⟩ : PriceLevel) ::
      b.bids.dropWhile (fun l : PriceLevel => decide (l.price < o.price))).map
        (fun l => if l.lid = b.next_lid then PriceLevel.addOrder l o else l),
    asks := b.asks.map
      (fun l => if l.lid = b.next_lid then PriceLevel.addOrder l o else l),
    price_index := b.price_index ++ [(o.price, b.next_lid)],
    order_index := b.order_index ++ [(o.id, (⟨b.next_lid, o.side⟩ : OrderLocation))],
    next_lid := b.next_lid + 1 } with hB1
  have hT : ∀ l ∈ b.bids.takeWhile (fun l : PriceLevel => decide (l.price < o.price)),
      ¬ l.lid = b.next_lid := fun l hl hll =>
    Nat.lt_irrefl b.next_lid (hll ▸ hfresh l
      (List.mem_append_left _ ((List.takeWhile_sublist _).subset hl)))
  have hD : ∀ l ∈ b.bids.dropWhile (fun l : PriceLevel => decide (l.price < o.price)),
      ¬ l.lid = b.next_lid := fun l hl hll =>
    Nat.lt_irrefl b.next_lid (hll ▸ hfresh l
      (List.mem_append_left _ ((List.dropWhile_sublist _).subset hl)))
  have hA : ∀ l ∈ b.asks, ¬ l.lid = b.next_lid := fun l hl hll =>
    Nat.lt_irrefl b.next_lid (hll ▸ hfresh l (List.mem_append_right _ hl))
  have hfoc : findOrCreatePriceLevel b o.price o.side
      = ({ b with
            bids := b.bids.takeWhile (fun l : PriceLevel => decide (l.price < o.price)) ++
              (⟨b.next_lid, o.price, 0, 0, []⟩ : PriceLevel) ::
              b.bids.dropWhile (fun l : PriceLevel => decide (l.price < o.price)),
            price_index := b.price_index ++ [(o.price, b.next_lid)],
            next_lid := b.next_lid + 1 }, b.next_lid) := by
    unfold findOrCreatePriceLevel
    rw [hpi]
    dsimp only
    unfold createPriceLevel
    dsimp only
    rw [if_pos hside]
    dsimp only
    rw [aupsert_of_none _ _ _ hpi]
  have hncB : noCrossTop B1 o := by
    unfold noCrossTop at hnc ⊢
    rw [if_pos hside] at hnc ⊢
    rw [hB1]
    dsimp only
    rw [map_upd_id _ _ _ hA]
    exact hnc
  have hlkB : B1.lookupOrder o.id = some o := by
    show alookup (b.orders ++ [(o.id, o)]) o.id = some o
    exact alookup_append_right _ _ _ hfreshHeap
  constructor
  · unfold processAddOrder
    rw [hfreshIdx]
    rw [if_neg (by decide : ¬ ((none : Option OrderLocation).isSome = true))]
    rw [hfoc]
    dsimp only [Book.updLevel]
    rw [aupsert_of_none _ _ _ hfreshIdx]
    exact addOrder_tail_eval B1 o b.next_lid (processMatching_of_noCrossTop B1 o hncB)
      hlkB hfill
  · have hbidrt : ∀ l ∈ (b.bids.takeWhile (fun l : PriceLevel => decide (l.price < o.price)) ++
        (⟨b.next_lid, o.price, 0, 0, []⟩ : PriceLevel) ::
        b.bids.dropWhile (fun l : PriceLevel => decide (l.price < o.price))),
        l.lid = b.next_lid →
        PriceLevel.removeOrder (PriceLevel.addOrder l o) o = l := by
      intro l hl hll
      rcases List.mem_append.mp hl with h | h
      · exact absurd hll (hT l h)
      · rcases List.mem_cons.mp h with h2 | h2
        · rw [h2]
          exact removeOrder_addOrder _ o (List.not_mem_nil _)
        · exact absurd hll (hD l h2)
    have haskrt : ∀ l ∈ b.asks, l.lid = b.next_lid →
        PriceLevel.removeOrder (PriceLevel.addOrder l o) o = l :=
      fun l hl hll => absurd hll (hA l hl)
    have hc1 : B1.updLevel b.next_lid (PriceLevel.removeOrder · o)
        = { b with
            orders := b.orders ++ [(o.id, o)],
            bids := b.bids.takeWhile (fun l : PriceLevel => decide (l.price < o.price)) ++
              (⟨b.next_lid, o.price, 0, 0, []⟩ : PriceLevel) ::
              b.bids.dropWhile (fun l : PriceLevel => decide (l.price < o.price)),
            price_index := b.price_index ++ [(o.price, b.next_lid)],
            order_index := b.order_index ++ [(o.id, (⟨b.next_lid, o.side⟩ : OrderLocation))],
            next_lid := b.next_lid + 1 } := by
      rw [hB1]
      unfold Book.updLevel
      dsimp only
      rw [map_upd_upd _ b.next_lid (fun l => PriceLevel.addOrder l o)
          (fun l => PriceLevel.removeOrder l o) (fun l => rfl) hbidrt,
        map_upd_upd b.asks b.next_lid (fun l => PriceLevel.addOrder l o)
          (fun l => PriceLevel.removeOrder l o) (fun l => rfl) haskrt]
    have hfind1 : ({ b with
        orders := b.orders ++ [(o.id, o)],
        bids := b.bids.takeWhile (fun l : PriceLevel => decide (l.price < o.price)) ++
          (⟨b.next_lid, o.price, 0, 0, []⟩ : PriceLevel) ::
          b.bids.dropWhile (fun l : PriceLevel => decide (l.price < o.price)),
        price_index := b.price_index ++ [(o.price, b.next_lid)],
        order_index := b.order_index ++ [(o.id, (⟨b.next_lid, o.side⟩ : OrderLocation))],
        next_lid := b.next_lid + 1 } : Book).findLevelById b.next_lid
        = some (⟨b.next_lid, o.price, 0, 0, []⟩ : PriceLevel) := by
      show ((b.bids.takeWhile (fun l : PriceLevel => decide (l.price < o.price)) ++
        (⟨b.next_lid, o.price, 0, 0, []⟩ : PriceLevel) ::
        b.bids.dropWhile (fun l : PriceLevel => decide (l.price < o.price))) ++
          b.asks).find? (fun l => l.lid == b.next_lid)
        = some (⟨b.next_lid, o.price, 0, 0, []⟩ : PriceLevel)
      rw [List.append_assoc, List.cons_append]
      exact find_middleahead _ _ _ _ hT rfl
    unfold processCancelOrder
    rw [show alookup B1.order_index o.id = some (⟨b.next_lid, o.side⟩ : OrderLocation) from
      alookup_append_right _ _ _ hfreshIdx]
    dsimp only
    rw [hlkB]
    dsimp only
    rw [hc1]
    unfold cleanupLevelIf
    rw [hfind1]
    dsimp only
    rw [if_pos (show ((⟨b.next_lid, o.price, 0, 0, []⟩ : PriceLevel)).isEmpty from Or.inl rfl)]
    rw [if_pos (show alookup (b.price_index ++ [(o.price, b.next_lid)]) o.price
      = some b.next_lid from alookup_append_right _ _ _ hpi)]
    unfold removePriceLevel
    rw [hfind1]
    dsimp only
    rw [if_neg (not_not_intro
      (show ((⟨b.next_lid, o.price, 0, 0, []⟩ : PriceLevel)).isEmpty from Or.inl rfl))]
    rw [aerase_append_right _ _ _ hpi]
    rw [if_pos hside]
    rw [eraseP_middle _ _ _ _ hT rfl, List.takeWhile_append_dropWhile]
    unfold Book.deleteOrder
    dsimp only
    rw [aerase_append_right _ _ _ hfreshHeap, aerase_append_right _ _ _ hfreshIdx]

theorem c8_create_sell (b : Book) (o : Order)
    (hside : o.side = Side.Sell)
    (hpi : alookup b.price_index o.price = none)
    (hfreshIdx : alookup b.order_index o.id = none)
    (hfreshHeap : alookup b.orders o.id = none)
    (hfill : o.filled_quantity = 0)
    (hnc : noCrossTop b o)
    (hfresh : lidsFresh b) :
    processAddOrder b o = some
      ({ b with
          orders := b.orders ++ [(o.id, o)],
          bids := b.bids.map
            (fun l => if l.lid = b.next_lid then PriceLevel.addOrder l o else l),
          asks := (b.asks.takeWhile (fun l : PriceLevel => decide (o.price < l.price)) ++
            (⟨b.next_lid, o.price, 0, 0, []⟩ : PriceLevel) ::
            b.asks.dropWhile (fun l : PriceLevel => decide (o.price < l.price))).map
              (fun l => if l.lid = b.next_lid then PriceLevel.addOrder l o else l),
          price_index := b.price_index ++ [(o.price, b.next_lid)],
          order_index := b.order_index ++ [(o.id, (⟨b.next_lid, o.side⟩ : OrderLocation))],
          next_lid := b.next_lid + 1 }, [])
    ∧ processCancelOrder
        ({ b with
          orders := b.orders ++ [(o.id, o)],
          bids := b.bids.map
            (fun l => if l.lid = b.next_lid then PriceLevel.addOrder l o else l),
          asks := (b.asks.takeWhile (fun l : PriceLevel => decide (o.price < l.price)) ++
            (⟨b.next_lid, o.price, 0, 0, []⟩ : PriceLevel) ::
            b.asks.dropWhile (fun l : PriceLevel => decide (o.price < l.price))).map
              (fun l => if l.lid = b.next_lid then PriceLevel.addOrder l o else l),
          price_index := b.price_index ++ [(o.price, b.next_lid)],
          order_index := b.order_index ++ [(o.id, (⟨b.next_lid, o.side⟩ : OrderLocation))],
          next_lid := b.next_lid + 1 }) o.id
      = ({ b with next_lid := b.next_lid + 1 }, false) := by
  have hsb : ¬ o.side = Side.Buy := by
    rw [hside]
    decide
  set B1 : Book := { b with
    orders := b.orders ++ [(o.id, o)],
    bids := b.bids.map
      (fun l => if l.lid = b.next_lid then PriceLevel.addOrder l o else l),
    asks := (b.asks.takeWhile (fun l : PriceLevel => decide (o.price < l.price)) ++
      (⟨b.next_lid, o.price, 0, 0, []⟩ : PriceLevel) ::
      b.asks.dropWhile (fun l : PriceLevel => decide (o.price < l.price))).map
        (fun l => if l.lid = b.next_lid then PriceLevel.addOrder l o else l),
    price_index := b.price_index ++ [(o.price, b.next_lid)],
    order_index := b.order_index ++ [(o.id, (⟨b.next_lid, o.side⟩ : OrderLocation))],
    next_lid := b.next_lid + 1 } with hB1
  have hT : ∀ l ∈ b.asks.takeWhile (fun l : PriceLevel => decide (o.price < l.price)),
      ¬ l.lid = b.next_lid := fun l hl hll =>
    Nat.lt_irrefl b.next_lid (hll ▸ hfresh l
      (List.mem_append_right _ ((List.takeWhile_sublist _).subset hl)))
  have hD : ∀ l ∈ b.asks.dropWhile (fun l : PriceLevel => decide (o.price < l.price)),
      ¬ l.lid = b.next_lid := fun l hl hll =>
    Nat.lt_irrefl b.next_lid (hll ▸ hfresh l
      (List.mem_append_right _ ((List.dropWhile_sublist _).subset hl)))
  have hB : ∀ l ∈ b.bids, ¬ l.lid = b.next_lid := fun l hl hll =>
    Nat.lt_irrefl b.next_lid (hll ▸ hfresh l (List.mem_append_left _ hl))
  have hBT : ∀ l ∈ b.bids ++
      b.asks.takeWhile (fun l : PriceLevel => decide (o.price < l.price)),
      ¬ l.lid = b.next_lid := by
    intro l hl
    rcases List.mem_append.mp hl with h | h
    · exact hB l h
    · exact hT l h
  have hfoc : findOrCreatePriceLevel b o.price o.side
      = ({ b with
            asks := b.asks.takeWhile (fun l : PriceLevel => decide (o.price < l.price)) ++
              (⟨b.next_lid, o.price, 0, 0, []⟩ : PriceLevel) ::
              b.asks.dropWhile (fun l : PriceLevel => decide (o.price < l.price)),
            price_index := b.price_index ++ [(o.price, b.next_lid)],
            next_lid := b.next_lid + 1 }, b.next_lid) := by
    unfold findOrCreatePriceLevel
    rw [hpi]
    dsimp only
    unfold createPriceLevel
    dsimp only
    rw [if_neg hsb]
    dsimp only
    rw [aupsert_of_none _ _ _ hpi]
  have hncB : noCrossTop B1 o := by
    unfold noCrossTop at hnc ⊢
    rw [if_neg hsb] at hnc ⊢
    rw [hB1]
    dsimp only
    rw [map_upd_id _ _ _ hB]
    exact hnc
  have hlkB : B1.lookupOrder o.id = some o := by
    show alookup (b.orders ++ [(o.id, o)]) o.id = some o
    exact alookup_append_right _ _ _ hfreshHeap
  constructor
  · unfold processAddOrder
    rw [hfreshIdx]
    rw [if_neg (by decide : ¬ ((none : Option OrderLocation).isSome = true))]
    rw [hfoc]
    dsimp only [Book.updLevel]
    rw [aupsert_of_none _ _ _ hfreshIdx]
    exact addOrder_tail_eval B1 o b.next_lid (processMatching_of_noCrossTop B1 o hncB)
      hlkB hfill
  · have haskrt : ∀ l ∈ (b.asks.takeWhile (fun l : PriceLevel => decide (o.price < l.price)) ++
        (⟨b.next_lid, o.price, 0, 0, []⟩ : PriceLevel) ::
        b.asks.dropWhile (fun l : PriceLevel => decide (o.price < l.price))),
        l.lid = b.next_lid →
        PriceLevel.removeOrder (PriceLevel.addOrder l o) o = l := by
      intro l hl hll
      rcases List.mem_append.mp hl with h | h
      · exact absurd hll (hT l h)
      · rcases List.mem_cons.mp h with h2 | h2
        · rw [h2]
          exact removeOrder_addOrder _ o (List.not_mem_nil _)
        · exact absurd hll (hD l h2)
    have hbidrt : ∀ l ∈ b.bids, l.lid = b.next_lid →
        PriceLevel.removeOrder (PriceLevel.addOrder l o) o = l :=
      fun l hl hll => absurd hll (hB l hl)
    have hc1 : B1.updLevel b.next_lid (PriceLevel.removeOrder · o)
        = { b with
            orders := b.orders ++ [(o.id, o)],
            asks := b.asks.takeWhile (fun l : PriceLevel => decide (o.price < l.price)) ++
              (⟨b.next_lid, o.price, 0, 0, []⟩ : PriceLevel) ::
              b.asks.dropWhile (fun l : PriceLevel => decide (o.price < l.price)),
            price_index := b.price_index ++ [(o.price, b.next_lid)],
            order_index := b.order_index ++ [(o.id, (⟨b.next_lid, o.side⟩ : OrderLocation))],
            next_lid := b.next_lid + 1 } := by
      rw [hB1]
      unfold Book.updLevel
      dsimp only
      rw [map_upd_upd b.bids b.next_lid (fun l => PriceLevel.addOrder l o)
          (fun l => PriceLevel.removeOrder l o) (fun l => rfl) hbidrt,
        map_upd_upd _ b.next_lid (fun l => PriceLevel.addOrder l o)
          (fun l => PriceLevel.removeOrder l o) (fun l => rfl) haskrt]
    have hfind1 : ({ b with
        orders := b.orders ++ [(o.id, o)],
        asks := b.asks.takeWhile (fun l : PriceLevel => decide (o.price < l.price)) ++
          (⟨b.next_lid, o.price, 0, 0, []⟩ : PriceLevel) ::
          b.asks.dropWhile (fun l : PriceLevel => decide (o.price < l.price)),
        price_index := b.price_index ++ [(o.price, b.next_lid)],
        order_index := b.order_index ++ [(o.id, (⟨b.next_lid, o.side⟩ : OrderLocation))],
        next_lid := b.next_lid + 1 } : Book).findLevelById b.next_lid
        = some (⟨b.next_lid, o.price, 0, 0, []⟩ : PriceLevel) := by
      show (b.bids ++
        (b.asks.takeWhile (fun l : PriceLevel => decide (o.price < l.price)) ++
          (⟨b.next_lid, o.price, 0, 0, []⟩ : PriceLevel) ::
          b.asks.dropWhile (fun l : PriceLevel => decide (o.price < l.price)))).find?
            (fun l => l.lid == b.next_lid)
        = some (⟨b.next_lid, o.price, 0, 0, []⟩ : PriceLevel)
      rw [← List.append_assoc]
      exact find_middleahead _ _ _ _ hBT rfl
    unfold processCancelOrder
    rw [show alookup B1.order_index o.id = some (⟨b.next_lid, o.side⟩ : OrderLocation) from
      alookup_append_right _ _ _ hfreshIdx]
    dsimp only
    rw [hlkB]
    dsimp only
    rw [hc1]
    unfold cleanupLevelIf
    rw [hfind1]
    dsimp only
    rw [if_pos (show ((⟨b.next_lid, o.price, 0, 0, []⟩ : PriceLevel)).isEmpty from Or.inl rfl)]
    rw [if_pos (show alookup (b.price_index ++ [(o.price, b.next_lid)]) o.price
      = some b.next_lid from alookup_append_right _ _ _ hpi)]
    unfold removePriceLevel
    rw [hfind1]
    dsimp only
    rw [if_neg (not_not_intro
      (show ((⟨b.next_lid, o.price, 0, 0, []⟩ : PriceLevel)).isEmpty from Or.inl rfl))]
    rw [aerase_append_right _ _ _ hpi]
    rw [if_neg hsb]
    rw [eraseP_middle _ _ _ _ hT rfl, List.takeWhile_append_dropWhile]
    unfold Book.deleteOrder
    dsimp only
    rw [aerase_append_right _ _ _ hfreshHeap, aerase_append_right _ _ _ hfreshIdx]

/-- **C8.**  Adding an order that does not cross (no trade results) and
then cancelling it returns the book to its pre-add state: order count,
bid level count, ask level count, best bid, best ask and the heap size
all equal their pre-add values — a lazily created level is destroyed
again when its only order leaves. -/
theorem add_then_cancel_restores (b : Book) (o : Order)
    (hfreshIdx : alookup b.order_index o.id = none)
    (hfreshHeap : alookup b.orders o.id = none)
    (hfill : o.filled_quantity = 0)
    (hnc : noCrossTop b o)
    (hsite : addSiteOk b o = true)
    (hnd : LidsNodup b)
    (hfresh : lidsFresh b) :
    ∃ b1 b2,
      processAddOrder b o = some (b1, []) ∧
      processCancelOrder b1 o.id = (b2, false) ∧
      getOrderCount b2 = getOrderCount b ∧
      getBidLevelCount b2 = getBidLevelCount b ∧
      getAskLevelCount b2 = getAskLevelCount b ∧
      bestBid b2 = bestBid b ∧
      bestAsk b2 = bestAsk b ∧
      b2.orders.length = b.orders.length := by
  unfold addSiteOk at hsite
  cases hpi : alookup b.price_index o.price with
  | some lid =>
    rw [hpi] at hsite
    dsimp only at hsite
    cases hfind : b.findLevelById lid with
    | none =>
      rw [hfind] at hsite
      cases hsite
    | some lvl =>
      rw [hfind] at hsite
      dsimp only at hsite
      simp only [Bool.and_eq_true, decide_eq_true_eq] at hsite
      obtain ⟨⟨⟨hprice, hmem⟩, hne⟩, hnotin⟩ := hsite
      obtain ⟨hadd, hcancel⟩ := c8_join b o lid lvl hpi hfind hprice hmem hne hnotin
        hfreshIdx hfreshHeap hfill hnc hnd
      exact ⟨_, b, hadd, hcancel, rfl, rfl, rfl, rfl, rfl, rfl⟩
  | none =>
    cases hside : o.side with
    | Buy =>
      obtain ⟨hadd, hcancel⟩ :=
        c8_create_buy b o hside hpi hfreshIdx hfreshHeap hfill hnc hfresh
      exact ⟨_, _, hadd, hcancel, rfl, rfl, rfl, rfl, rfl, rfl⟩
    | Sell =>
      obtain ⟨hadd, hcancel⟩ :=
        c8_create_sell b o hside hpi hfreshIdx hfreshHeap hfill hnc hfresh
      exact ⟨_, _, hadd, hcancel, rfl, rfl, rfl, rfl, rfl, rfl⟩


/-- Closed witness for C8: a buy resting below the sample ask satisfies
every hypothesis, and its add-then-cancel round trip restores the book. -/
theorem add_then_cancel_restores_witness :
    alookup sampleBook.order_index sampleRestingBuy.id = none ∧
    alookup sampleBook.orders sampleRestingBuy.id = none ∧
    sampleRestingBuy.filled_quantity = 0 ∧
    noCrossTop sampleBook sampleRestingBuy ∧
    addSiteOk sampleBook sampleRestingBuy = true ∧
    LidsNodup sampleBook ∧
    lidsFresh sampleBook ∧
    (∃ b1 b2,
      processAddOrder sampleBook sampleRestingBuy = some (b1, []) ∧
      processCancelOrder b1 sampleRestingBuy.id = (b2, false) ∧
      getOrderCount b2 = getOrderCount sampleBook ∧
      getBidLevelCount b2 = getBidLevelCount sampleBook ∧
      getAskLevelCount b2 = getAskLevelCount sampleBook ∧
      bestBid b2 = bestBid sampleBook ∧
      bestAsk b2 = bestAsk sampleBook ∧
      b2.orders.length = sampleBook.orders.length) :=
  ⟨by decide, by decide, rfl, by with_unfolding_all decide, by with_unfolding_all decide,
    by decide, by decide,
    add_then_cancel_restores sampleBook sampleRestingBuy (by decide) (by decide) rfl
      (by with_unfolding_all decide) (by with_unfolding_all decide) (by decide) (by decide)⟩

end VertexLadder
